import Mathlib

/-! # NoiseGate: the envelope-and-gate processor of `NoiseGate.cpp`

A shallow embedding of the `NoiseGate` audio processor
(`JUCE/examples/PlugInSamples/NoiseGate/Source/NoiseGate.cpp`).

Modelling conventions.

* The processor is embedded over exact rationals (`ℚ`) for `float` and
  `double`: this is the arithmetic in which the control flow of the gate (what
  follows from which detection) is proved.  The one place where it would have
  to invent a value, the division of the side-chain sum by a channel count of
  zero, is a failure (`none`).
* The source computes in float32.  `Float32`, `round32`, `mixedSamples32`,
  `updateLevel32` and `levelAfter32` embed lines 79 to 84 in that arithmetic,
  rounding every operation and with the infinities and NaN; the statements
  that the rounding or the special values falsify are refuted there.  The
  theorems on the level that are kept assume finite frames (`finiteFrame`) and
  say only what both arithmetics agree on.
* `int` values are mathematical integers.  The hold counter is only ever
  assigned `(int) getSampleRate()` or decremented while positive, so no
  arithmetic on it can overflow; `(int)` is truncation toward zero, defined in
  the source for values in the `int` range only, and the theorems on the value
  of the counter assume a sample rate in that range.
* An `AudioSampleBuffer` is a list of channels, each a list of samples.  The two
  bus views `mainInputOutput` and `sideChainInput` that `getBusBuffer` hands
  out, the block length `buffer.getNumSamples()` and the host's
  `getSampleRate()` are inputs of the model.  The clearing loop at the head of
  `processBlock` touches only output channels that have no input channel, which
  belong to neither view.
* Framework code that the source file calls but does not contain (the stream
  classes, `setValueNotifyingHost`, the base-class
  `setPreferredBusArrangement`) is a parameter of the function that calls it.
-/

set_option maxRecDepth 8000

/-! ## Data model -/

/-- The four private members of the class: the values of the two float
parameters, the hold counter and the smoothed side-chain level. -/
structure NoiseGate where
  threshold : ℚ
  alpha : ℚ
  sampleCountDown : Int
  lowPassCoeff : ℚ
deriving DecidableEq

namespace NoiseGate

/-- Contents of an `AudioSampleBuffer`: one list of samples per channel. -/
abbrev AudioSampleBuffer := List (List ℚ)

/-- The read `buffer.getReadPointer (i) [j]`. -/
def readSample (buffer : AudioSampleBuffer) (i j : Nat) : ℚ :=
  (buffer.getD i []).getD j 0

/-- The write `*buffer.getWritePointer (i, j) = v`. -/
def writeSample (buffer : AudioSampleBuffer) (i j : Nat) (v : ℚ) : AudioSampleBuffer :=
  buffer.set i ((buffer.getD i []).set j v)

/-- The conversion `(int) x` of a floating-point value: truncation toward zero.
The source defines it only while the truncated value is an `int`, that is
within `-2 ^ 31 .. 2 ^ 31 - 1`; the theorems that speak of the value the hold
counter is loaded with assume that range. -/
def toInt (x : ℚ) : Int :=
  x.num.tdiv x.den

/-! ## Operations -/

/-- `prepareToPlay (double, int)`: both arguments are ignored; the smoothed
level and the hold counter are reset, the parameters are kept. -/
def prepareToPlay (_sampleRate : ℚ) (_maxBlockSize : Int) (g : NoiseGate) : NoiseGate :=
  { g with lowPassCoeff := 0, sampleCountDown := 0 }

/-- Lines 79–83 of `processBlock`: the side-chain samples of frame `j` are
summed over the channels and the sum is divided by the channel count.  With no
side-chain channel the division is by zero and there is no result. -/
def mixedSamples (sideChainInput : AudioSampleBuffer) (j : Nat) : Option ℚ :=
  let sum := (List.range sideChainInput.length).foldl
    (fun acc i => acc + readSample sideChainInput i j) 0
  if sideChainInput.length = 0 then none
  else some (sum / (sideChainInput.length : ℚ))

/-- Lines 84–87 of `processBlock`: the leaky integrator is advanced with the
block's copies of the parameters, and the hold counter is reloaded with
`(int) getSampleRate()` when the new level reaches the threshold.  The level is
computed exactly here; `updateLevel32` is the same line with float32
rounding. -/
def updateLevel (alphaCopy thresholdCopy sampleRate : ℚ) (g : NoiseGate) (mixed : ℚ) :
    NoiseGate :=
  let lowPassCoeff := (alphaCopy * g.lowPassCoeff) + ((1 - alphaCopy) * mixed)
  if lowPassCoeff ≥ thresholdCopy then
    { g with lowPassCoeff := lowPassCoeff, sampleCountDown := toInt sampleRate }
  else
    { g with lowPassCoeff := lowPassCoeff }

/-- Lines 90–91 of `processBlock`: sample `j` of every main channel is
rewritten, kept while the hold counter is positive and zeroed otherwise. -/
def writeMain (sampleCountDown : Int) (mainInputOutput : AudioSampleBuffer) (j : Nat) :
    AudioSampleBuffer :=
  (List.range mainInputOutput.length).foldl
    (fun buf i => writeSample buf i j (if sampleCountDown > 0 then readSample buf i j else 0))
    mainInputOutput

/-- Lines 93–94 of `processBlock`: the hold counter is decremented while it is
positive. -/
def countDown (g : NoiseGate) : NoiseGate :=
  if g.sampleCountDown > 0 then { g with sampleCountDown := g.sampleCountDown - 1 } else g

/-- The body of the sample loop of `processBlock` (lines 79–94) for frame `j`. -/
def processSample (alphaCopy thresholdCopy sampleRate : ℚ) (sideChainInput : AudioSampleBuffer)
    (acc : NoiseGate × AudioSampleBuffer) (j : Nat) : Option (NoiseGate × AudioSampleBuffer) :=
  match mixedSamples sideChainInput j with
  | none => none
  | some mixed =>
    let g := updateLevel alphaCopy thresholdCopy sampleRate acc.1 mixed
    some (countDown g, writeMain g.sampleCountDown acc.2 j)

/-- `processBlock`: the parameters are copied once, then the frames
`0 .. numSamples - 1` are processed in order.  The result is the processor
after the block together with the rewritten main bus. -/
def processBlock (sampleRate : ℚ) (numSamples : Nat) (sideChainInput : AudioSampleBuffer)
    (g : NoiseGate) (mainInputOutput : AudioSampleBuffer) :
    Option (NoiseGate × AudioSampleBuffer) :=
  let alphaCopy := g.alpha
  let thresholdCopy := g.threshold
  (List.range numSamples).foldlM
    (processSample alphaCopy thresholdCopy sampleRate sideChainInput) (g, mainInputOutput)

/-! ## Observations on a run -/

/-- Frame `k` of a block started in `g` is a detection: the run of the first
`k + 1` frames returns, and the smoothed level it leaves (the level updated at
frame `k`) is at least the threshold. -/
def detectsAt (sampleRate : ℚ) (sideChainInput : AudioSampleBuffer) (g : NoiseGate)
    (mainInputOutput : AudioSampleBuffer) (k : Nat) : Prop :=
  ∃ gk outk, processBlock sampleRate (k + 1) sideChainInput g mainInputOutput = some (gk, outk) ∧
    gk.lowPassCoeff ≥ g.threshold

/-- A side-chain frame whose channel sum is finite in float32 whatever the
rounding: fewer than `2 ^ 23` channels, and sample magnitudes that add up to
less than `2 ^ 127`.  Outside such frames the source's sum can overflow to an
infinity, which the exact arithmetic of this file does not have. -/
def finiteFrame (sideChainInput : AudioSampleBuffer) (j : Nat) : Prop :=
  sideChainInput.length < 2 ^ 23 ∧
  (sideChainInput.map (fun ch => |ch.getD j 0|)).sum < 2 ^ 127

/-- The processors a host can bring about: `prepareToPlay` on any processor,
followed by any sequence of parameter changes and of returning `processBlock`
calls.  `admits` is the side condition a statement puts on the calls: on the
sample rate, the block length, the side-chain and the processor the call
starts from. -/
inductive Reachable (admits : ℚ → Nat → AudioSampleBuffer → NoiseGate → Prop) :
    NoiseGate → Prop
  | prepare (sampleRate : ℚ) (maxBlockSize : Int) (g : NoiseGate) :
      Reachable admits (prepareToPlay sampleRate maxBlockSize g)
  | setParameters (g : NoiseGate) (threshold alpha : ℚ) :
      Reachable admits g → Reachable admits { g with threshold := threshold, alpha := alpha }
  | process (sampleRate : ℚ) (numSamples : Nat) (sideChainInput : AudioSampleBuffer)
      (g : NoiseGate) (mainInputOutput : AudioSampleBuffer) (g1 : NoiseGate)
      (out : AudioSampleBuffer) :
      Reachable admits g → admits sampleRate numSamples sideChainInput g →
      processBlock sampleRate numSamples sideChainInput g mainInputOutput = some (g1, out) →
      Reachable admits g1

/-! ## State persistence

`getStateInformation` and `setStateInformation` use the stream classes and the
parameter class of the framework, whose code is not part of the source file.
What they need from them is collected in `StreamCodec` and passed in. -/

/-- One byte of a state blob. -/
abbrev Byte := Fin 256

/-- The framework behaviour the state functions rely on: the raw 32-bit
encoding of a `float` that the streams write and read, and the value that
`setValueNotifyingHost` stores in a parameter. -/
structure StreamCodec where
  /-- The bytes `writeFloat` emits for a value. -/
  encodeFloat : ℚ → List Byte
  /-- The value `readFloat` makes of the bytes it has read. -/
  decodeFloat : List Byte → ℚ
  /-- The value a parameter holds after `setValueNotifyingHost (newValue)`. -/
  setValue : ℚ → ℚ

/-- The contract of a raw 32-bit codec on a set `isFloat` of values: every value
is written as four bytes, a value of the set is read back from its bytes
unchanged, and `setValueNotifyingHost` stores a value of the parameter range
`[0, 1]` unchanged. -/
def StreamCodec.Raw32 (c : StreamCodec) (isFloat : ℚ → Prop) : Prop :=
  (∀ x, (c.encodeFloat x).length = 4) ∧
  (∀ x, isFloat x → c.decodeFloat (c.encodeFloat x) = x) ∧
  (∀ x, 0 ≤ x → x ≤ 1 → c.setValue x = x)

/-- Modelled from the spec: `MemoryOutputStream::writeFloat` (framework code,
not in the source file) appends the raw 32-bit encoding of the value to the
stream, with no marker before or after it. -/
def writeFloat (c : StreamCodec) (stream : List Byte) (x : ℚ) : List Byte :=
  stream ++ c.encodeFloat x

/-- Modelled from the spec: `MemoryInputStream::readFloat` (framework code, not
in the source file) takes the next four bytes of the stream and decodes them;
the result is the value and the rest of the stream. -/
def readFloat (c : StreamCodec) (stream : List Byte) : ℚ × List Byte :=
  (c.decodeFloat (stream.take 4), stream.drop 4)

/-- `getStateInformation`: the output stream is opened on `destData` in append
mode (the `true` of line 114), then the threshold and the alpha are written,
in that order.  The result is the content of `destData` afterwards. -/
def getStateInformation (c : StreamCodec) (g : NoiseGate) (destData : List Byte) : List Byte :=
  let stream := destData
  let stream := writeFloat c stream g.threshold
  let stream := writeFloat c stream g.alpha
  stream

/-- `setStateInformation`: the input stream is opened on the `sizeInBytes`
bytes of `data`; the first float read is given to the threshold, the second to
the alpha, each through `setValueNotifyingHost`. -/
def setStateInformation (c : StreamCodec) (data : List Byte) (g : NoiseGate) : NoiseGate :=
  let stream := data
  let r1 := readFloat c stream
  let g := { g with threshold := c.setValue r1.1 }
  let r2 := readFloat c r1.2
  { g with alpha := c.setValue r2.1 }

/-- Modelled from the spec: the value of a raw 32-bit float (IEEE 754 binary32),
least significant byte first.  The bit patterns of the infinities and of NaN
have no rational value and are read as `0`. -/
def decode32 (bytes : List Byte) : ℚ :=
  let bits : Nat := (bytes.getD 0 0).val + 256 * (bytes.getD 1 0).val
    + 65536 * (bytes.getD 2 0).val + 16777216 * (bytes.getD 3 0).val
  let sign : ℚ := if bits / 2 ^ 31 = 1 then -1 else 1
  let e : Nat := (bits / 2 ^ 23) % 256
  let m : Nat := bits % 2 ^ 23
  if e = 255 then 0
  else if e = 0 then sign * (m : ℚ) / 2 ^ 149
  else if e < 150 then sign * ((2 ^ 23 + m : Nat) : ℚ) / 2 ^ (150 - e)
  else sign * ((2 ^ 23 + m : Nat) : ℚ) * 2 ^ (e - 150)

/-- Modelled from the spec: the raw 32-bit encoding of a value (IEEE 754
binary32, least significant byte first), truncating what the 24-bit
significand cannot hold. -/
def encode32 (x : ℚ) : List Byte :=
  let n : Nat := x.num.natAbs
  let d : Nat := x.den
  let s : Nat := if x < 0 then 1 else 0
  let e : Nat := ((List.range 255).find? (fun E =>
    decide (1 ≤ E ∧ 2 ^ (23 + E) * d ≤ n * 2 ^ 150 ∧ n * 2 ^ 150 < 2 ^ (24 + E) * d))).getD 0
  let m : Nat := if e = 0 then (n * 2 ^ 149) / d else (n * 2 ^ 150) / (d * 2 ^ e) - 2 ^ 23
  let bits : Nat := s * 2 ^ 31 + e * 2 ^ 23 + m % 2 ^ 23
  [Fin.ofNat bits, Fin.ofNat (bits / 256), Fin.ofNat (bits / 65536), Fin.ofNat (bits / 16777216)]

/-- Modelled from the spec: the codec of the state blob, raw 32-bit floats on
the stream, together with the parameter range `0 .. 1` of the two parameters of
the constructor (lines 34 and 35), under which a normalised value `v` stands
for `0 + (1 - 0) * v`. -/
def binary32 : StreamCodec where
  encodeFloat := encode32
  decodeFloat := decode32
  setValue := fun v => 0 + (1 - 0) * v

/-- The values binary32 holds exactly. -/
def isFloat32 (x : ℚ) : Prop :=
  decode32 (encode32 x) = x

/-! ## Bus arrangement -/

/-- An `AudioChannelSet`, as the list of its channels; `size ()` is its length. -/
abbrev AudioChannelSet := List Nat

/-- `setPreferredBusArrangement`.  The base-class method
`AudioProcessor::setPreferredBusArrangement` is framework code outside the
source file and is the parameter `base`: from a request and the current bus
arrangement it gives its answer and the arrangement it leaves. -/
def setPreferredBusArrangement {Arrangement : Type}
    (base : Bool → Int → AudioChannelSet → Arrangement → Bool × Arrangement)
    (isInputBus : Bool) (busIndex : Int) (preferred : AudioChannelSet)
    (busArrangement : Arrangement) : Bool × Arrangement :=
  let numChannels := preferred.length
  -- do not allow disabling channels
  if numChannels = 0 then (false, busArrangement)
  -- only allow stereo on the side-chain bus
  else if busIndex = 1 ∧ numChannels ≠ 2 then (false, busArrangement)
  else
    -- always have the same channel layout on both input and output on the main bus
    let r := base (!isInputBus) busIndex preferred busArrangement
    if !r.1 then (false, r.2)
    else base isInputBus busIndex preferred r.2

/-! ## Float32 arithmetic

The arithmetic the compiled code performs on lines 79 to 84: IEEE 754 binary32,
every operation rounded to nearest with ties to even, with the infinities and
NaN.  The two zeros are not told apart.  It is used to evaluate the smoothed
level at concrete inputs where the source and the exact arithmetic above
part. -/

/-- A binary32 value: a rational the format holds, an infinity, or NaN. -/
inductive Float32
  | finite (value : ℚ)
  | infinite (negative : Bool)
  | nan
deriving DecidableEq

/-- Rounding of an exact result to binary32: to nearest, ties to even, with
the subnormal values below `2 ^ -126` and overflow to an infinity from
`2 ^ 128 - 2 ^ 103` on. -/
def round32 (q : ℚ) : Float32 :=
  let n : Nat := q.num.natAbs
  let d : Nat := q.den
  let E : Nat :=
    if 2 ^ 128 * d ≤ n then 254
    else ((List.range 255).find? (fun E =>
      decide (1 ≤ E ∧ 2 ^ (23 + E) * d ≤ n * 2 ^ 150 ∧ n * 2 ^ 150 < 2 ^ (24 + E) * d))).getD 0
  let e : Nat := max E 1
  let m : Nat := (n * 2 ^ 150) / (d * 2 ^ e)
  let r : Nat := (n * 2 ^ 150) % (d * 2 ^ e)
  let m1 : Nat := if 2 * r > d * 2 ^ e ∨ (2 * r = d * 2 ^ e ∧ m % 2 = 1) then m + 1 else m
  if 2 ^ 278 ≤ m1 * 2 ^ e then Float32.infinite (decide (q < 0))
  else Float32.finite ((if q < 0 then -1 else 1) * ((m1 * 2 ^ e : Nat) : ℚ) / 2 ^ 150)

namespace Float32

/-- Float addition. -/
def add : Float32 → Float32 → Float32
  | finite a, finite b => round32 (a + b)
  | finite _, infinite s => infinite s
  | infinite s, finite _ => infinite s
  | infinite s, infinite t => if s = t then infinite s else nan
  | _, _ => nan

/-- Float negation. -/
def neg : Float32 → Float32
  | finite a => finite (-a)
  | infinite s => infinite (!s)
  | nan => nan

/-- Float subtraction. -/
def sub (a b : Float32) : Float32 :=
  add a (neg b)

/-- Float multiplication; `0 * inf` is NaN. -/
def mul : Float32 → Float32 → Float32
  | finite a, finite b => round32 (a * b)
  | finite a, infinite s => if a = 0 then nan else infinite (xor s (decide (a < 0)))
  | infinite s, finite b => if b = 0 then nan else infinite (xor s (decide (b < 0)))
  | infinite s, infinite t => infinite (xor s t)
  | _, _ => nan

/-- Float division; `0 / 0` and `inf / inf` are NaN. -/
def div : Float32 → Float32 → Float32
  | finite a, finite b =>
    if b = 0 then (if a = 0 then nan else infinite (decide (a < 0))) else round32 (a / b)
  | finite _, infinite _ => finite 0
  | infinite s, finite b => infinite (xor s (decide (b < 0)))
  | _, _ => nan

/-- The comparison `a >= b`, false as soon as one side is NaN. -/
def ge : Float32 → Float32 → Bool
  | finite a, finite b => decide (a ≥ b)
  | finite _, infinite t => t
  | infinite s, finite _ => !s
  | infinite s, infinite t => !s || t
  | _, _ => false

end Float32

/-- Lines 79 to 83 in float32: the channel sum of frame `j`, divided by the
channel count converted to `float`. -/
def mixedSamples32 (sideChainInput : List (List Float32)) (j : Nat) : Float32 :=
  let sum := (List.range sideChainInput.length).foldl
    (fun acc i => Float32.add acc ((sideChainInput.getD i []).getD j (Float32.finite 0)))
    (Float32.finite 0)
  Float32.div sum (round32 (sideChainInput.length : ℚ))

/-- Line 84 in float32: the new smoothed level. -/
def updateLevel32 (alphaCopy lowPassCoeff mixedSamples : Float32) : Float32 :=
  Float32.add (Float32.mul alphaCopy lowPassCoeff)
    (Float32.mul (Float32.sub (Float32.finite 1) alphaCopy) mixedSamples)

/-- The float32 level after the first `n` frames of a block started at level
`lowPassCoeff`. -/
def levelAfter32 (alphaCopy : Float32) (sideChainInput : List (List Float32))
    (lowPassCoeff : Float32) : Nat → Float32
  | 0 => lowPassCoeff
  | n + 1 => updateLevel32 alphaCopy (levelAfter32 alphaCopy sideChainInput lowPassCoeff n)
      (mixedSamples32 sideChainInput n)

/-! ## Trace of a run

Total functions that name the intermediate values of a run of `processBlock`
on a side-chain with at least one channel.  They are built from the pieces of
the loop body above. -/

/-- The side-chain mix of frame `j` (`0` when `mixedSamples` has no result). -/
def mixAt (sideChainInput : AudioSampleBuffer) (j : Nat) : ℚ :=
  (mixedSamples sideChainInput j).getD 0

/-- The processor after the first `n` frames of a block started in `g`. -/
def stateAfter (sampleRate : ℚ) (sideChainInput : AudioSampleBuffer) (g : NoiseGate) :
    Nat → NoiseGate
  | 0 => g
  | n + 1 => countDown (updateLevel g.alpha g.threshold sampleRate
      (stateAfter sampleRate sideChainInput g n) (mixAt sideChainInput n))

/-- The processor inside frame `j`, after the threshold test of line 86 and
before the output is written: its hold counter decides the output of frame `j`. -/
def stateAt (sampleRate : ℚ) (sideChainInput : AudioSampleBuffer) (g : NoiseGate) (j : Nat) :
    NoiseGate :=
  updateLevel g.alpha g.threshold sampleRate (stateAfter sampleRate sideChainInput g j)
    (mixAt sideChainInput j)

/-! ## The per-sample step of the specification

A second, independent reading of the algorithm, written from the prose of the
specification (section 4.1, steps 1 to 5) over frames rather than channels.  It
is only used as the right-hand side of the refinement theorem. -/

/-- One frame of a block: sample `j` of every main channel and of every
side-chain channel. -/
structure Frame where
  main : List ℚ
  sideChain : List ℚ

/-- Frame `j` of a pair of bus buffers. -/
def frameAt (mainInputOutput sideChainInput : AudioSampleBuffer) (j : Nat) : Frame :=
  { main := mainInputOutput.map (fun ch => ch.getD j 0)
    sideChain := sideChainInput.map (fun ch => ch.getD j 0) }

/-- The specification's step for one frame: the state is the pair (smoothed
level, hold counter), the result is the new state and the output frame. -/
def specStep (alpha threshold sampleRate : ℚ) (s : ℚ × Int) (f : Frame) :
    (ℚ × Int) × List ℚ :=
  -- 1. the side-chain mix is the average of the side-chain channel values
  let mix := f.sideChain.sum / (f.sideChain.length : ℚ)
  -- 2. exponential smoothing
  let level := alpha * s.1 + (1 - alpha) * mix
  -- 3. gate trigger
  let counter := if level ≥ threshold then toInt sampleRate else s.2
  -- 4. output: the input sample if the hold counter is positive, else silence
  let out := f.main.map (fun x => if counter > 0 then x else 0)
  -- 5. decrement the hold counter if it is positive
  ((level, if counter > 0 then counter - 1 else counter), out)

/-- The left-to-right fold of `specStep` over the frames of a block; the
output frames are collected in order. -/
def specFold (alpha threshold sampleRate : ℚ) (s : ℚ × Int) (frames : List Frame) :
    (ℚ × Int) × List (List ℚ) :=
  frames.foldl
    (fun acc f =>
      let r := specStep alpha threshold sampleRate acc.1 f
      (r.1, acc.2 ++ [r.2]))
    (s, [])

/-! ## Buffer lemmas -/

theorem getD_set_eq {α : Type} (l : List α) (i k : Nat) (a d : α) :
    (l.set i a).getD k d = if i = k ∧ i < l.length then a else l.getD k d := by
  rw [List.getD_eq_getElem?_getD, List.getD_eq_getElem?_getD, List.getElem?_set]
  by_cases h1 : i = k
  · by_cases h2 : i < l.length
    · subst h1
      simp [h2]
    · subst h1
      simp [h2, List.getElem?_eq_none (Nat.le_of_not_lt h2)]
  · simp [h1]

theorem getD_nil_of_le (buf : AudioSampleBuffer) (i : Nat) (h : buf.length ≤ i) :
    buf.getD i [] = [] := by
  rw [List.getD_eq_getElem?_getD, List.getElem?_eq_none h]
  rfl

theorem foldl_set_getD (f : List ℚ → List ℚ) (hf : f [] = []) (k : Nat)
    (buf : AudioSampleBuffer) :
    ((List.range k).foldl (fun b i => b.set i (f (b.getD i []))) buf).length = buf.length ∧
    ∀ i, ((List.range k).foldl (fun b i => b.set i (f (b.getD i []))) buf).getD i [] =
      if i < k then f (buf.getD i []) else buf.getD i [] := by
  induction k with
  | zero => simp
  | succ k ih =>
    obtain ⟨hlen, hget⟩ := ih
    rw [List.range_succ, List.foldl_append]
    simp only [List.foldl_cons, List.foldl_nil, List.length_set]
    refine ⟨hlen, fun i => ?_⟩
    rw [hget k, getD_set_eq, hlen, hget i]
    simp only [lt_irrefl, if_false]
    by_cases hik : k = i
    · subst hik
      by_cases hk : k < buf.length
      · simp [hk]
      · simp only [hk, and_false, if_false, Nat.lt_succ_self, if_true,
          getD_nil_of_le buf k (Nat.le_of_not_lt hk), hf, ite_self]
    · have : i < k + 1 ↔ i < k := by omega
      simp only [hik, false_and, if_false, this]

theorem writeMain_spec (cd : Int) (main : AudioSampleBuffer) (j : Nat) :
    (writeMain cd main j).length = main.length ∧
    ∀ i, (writeMain cd main j).getD i [] =
      (main.getD i []).set j (if cd > 0 then (main.getD i []).getD j 0 else 0) := by
  have h := foldl_set_getD (fun ch => ch.set j (if cd > 0 then ch.getD j 0 else 0)) (by simp)
    main.length main
  refine ⟨h.1, fun i => ?_⟩
  have h2 := h.2 i
  unfold writeMain writeSample readSample
  rw [h2]
  by_cases hi : i < main.length
  · simp only [hi, if_true]
  · simp only [hi, if_false, getD_nil_of_le main i (Nat.le_of_not_lt hi), List.set_nil]

theorem readSample_writeMain (cd : Int) (main : AudioSampleBuffer) (j i k : Nat) :
    readSample (writeMain cd main j) i k =
      if k = j ∧ cd ≤ 0 then 0 else readSample main i k := by
  unfold readSample
  rw [(writeMain_spec cd main j).2 i, getD_set_eq]
  by_cases hk : j = k
  · subst hk
    by_cases hcd : cd > 0
    · have : ¬ cd ≤ 0 := by omega
      simp only [hcd, this, if_true, and_false, if_false, true_and, ite_self]
    · have : cd ≤ 0 := by omega
      simp only [hcd, this, if_true, and_true, if_false, true_and]
      by_cases hl : j < (main.getD i []).length
      · simp only [hl, if_true]
      · simp only [hl, if_false]
        rw [List.getD_eq_getElem?_getD, List.getElem?_eq_none (Nat.le_of_not_lt hl)]
        rfl
  · have : ¬ k = j := fun h => hk h.symm
    simp only [hk, this, false_and, if_false]

theorem length_getD_writeMain (cd : Int) (main : AudioSampleBuffer) (j i : Nat) :
    ((writeMain cd main j).getD i []).length = (main.getD i []).length := by
  rw [(writeMain_spec cd main j).2 i, List.length_set]

/-! ## The run of a block -/

theorem mixedSamples_eq_some (side : AudioSampleBuffer) (j : Nat) (hside : side ≠ []) :
    mixedSamples side j = some (mixAt side j) := by
  have h : ¬ side.length = 0 := fun h => hside (List.length_eq_zero.mp h)
  simp only [mixAt, mixedSamples, h, if_false, Option.getD_some]

theorem processBlock_succ (sr : ℚ) (n : Nat) (side : AudioSampleBuffer) (g : NoiseGate)
    (main : AudioSampleBuffer) :
    processBlock sr (n + 1) side g main =
      (processBlock sr n side g main).bind
        (fun acc => processSample g.alpha g.threshold sr side acc n) := by
  simp only [processBlock, List.range_succ, List.foldlM_append, List.foldlM_cons,
    List.foldlM_nil, bind_pure]
  rfl

theorem processBlock_run (sr : ℚ) (n : Nat) (side : AudioSampleBuffer) (g : NoiseGate)
    (main : AudioSampleBuffer) (hside : side ≠ []) :
    ∃ out, processBlock sr n side g main = some (stateAfter sr side g n, out) ∧
      out.length = main.length ∧
      (∀ i, (out.getD i []).length = (main.getD i []).length) ∧
      ∀ i j, readSample out i j =
        if j < n ∧ (stateAt sr side g j).sampleCountDown ≤ 0 then 0 else readSample main i j := by
  induction n with
  | zero =>
    refine ⟨main, ?_, rfl, fun _ => rfl, fun i j => ?_⟩
    · simp [processBlock, stateAfter]
    · simp
  | succ n ih =>
    obtain ⟨out, hrun, hlen, hch, hread⟩ := ih
    refine ⟨writeMain (stateAt sr side g n).sampleCountDown out n, ?_, ?_, ?_, ?_⟩
    · rw [processBlock_succ, hrun]
      simp only [Option.bind_some, processSample, mixedSamples_eq_some side n hside]
      rfl
    · rw [(writeMain_spec _ out n).1, hlen]
    · intro i
      rw [length_getD_writeMain, hch]
    · intro i j
      rw [readSample_writeMain, hread]
      by_cases hj : j = n
      · subst hj
        by_cases hcd : (stateAt sr side g j).sampleCountDown ≤ 0
        · simp [hcd]
        · simp [hcd]
      · by_cases hlt : j < n
        · have : j < n + 1 := by omega
          simp [hj, hlt, this]
        · have : ¬ j < n + 1 := by omega
          simp [hj, hlt, this]

/-! ## Refinement of the specification's fold -/

theorem range_map_getD {α β : Type} (l : List α) (d : α) (f : α → β) :
    (List.range l.length).map (fun i => f (l.getD i d)) = l.map f := by
  apply List.ext_getElem
  · simp
  · intro i h1 h2
    simp only [List.length_map, List.length_range] at h1
    simp [List.getD_eq_getElem?_getD, List.getElem?_eq_getElem h1]

theorem mixAt_eq (side : AudioSampleBuffer) (j : Nat) :
    mixAt side j = (side.map (fun ch => ch.getD j 0)).sum / (side.length : ℚ) := by
  have hsum : (List.range side.length).foldl (fun acc i => acc + readSample side i j) 0
      = (side.map (fun ch => ch.getD j 0)).sum := by
    rw [← range_map_getD side [] (fun ch => ch.getD j 0), List.sum_eq_foldl, List.foldl_map]
    rfl
  unfold mixAt mixedSamples
  by_cases h : side.length = 0
  · simp [h]
  · simp only [h, if_false, Option.getD_some, hsum]

theorem stateAfter_alpha (sr : ℚ) (side : AudioSampleBuffer) (g : NoiseGate) (n : Nat) :
    (stateAfter sr side g n).alpha = g.alpha ∧
    (stateAfter sr side g n).threshold = g.threshold := by
  induction n with
  | zero => exact ⟨rfl, rfl⟩
  | succ n ih =>
    simp only [stateAfter, countDown, updateLevel]
    split_ifs <;> exact ih

theorem specStep_eq (sr : ℚ) (side main : AudioSampleBuffer) (g : NoiseGate) (j : Nat) :
    specStep g.alpha g.threshold sr
        ((stateAfter sr side g j).lowPassCoeff, (stateAfter sr side g j).sampleCountDown)
        (frameAt main side j) =
      (((stateAfter sr side g (j + 1)).lowPassCoeff,
        (stateAfter sr side g (j + 1)).sampleCountDown),
       main.map (fun ch => if (stateAt sr side g j).sampleCountDown > 0 then ch.getD j 0 else 0))
    := by
  simp only [specStep, frameAt, stateAfter, stateAt, countDown, updateLevel, List.length_map,
    ← mixAt_eq, List.map_map]
  split_ifs <;> simp_all [Function.comp_def]

theorem specFold_range (sr : ℚ) (side main : AudioSampleBuffer) (g : NoiseGate) (n : Nat) :
    specFold g.alpha g.threshold sr (g.lowPassCoeff, g.sampleCountDown)
        ((List.range n).map (frameAt main side)) =
      (((stateAfter sr side g n).lowPassCoeff, (stateAfter sr side g n).sampleCountDown),
       (List.range n).map (fun j =>
         main.map (fun ch => if (stateAt sr side g j).sampleCountDown > 0 then ch.getD j 0 else 0)))
    := by
  induction n with
  | zero => rfl
  | succ n ih =>
    unfold specFold at ih ⊢
    rw [List.range_succ, List.map_append, List.foldl_append, ih]
    simp only [List.map_cons, List.map_nil, List.foldl_cons, List.foldl_nil, specStep_eq,
      List.map_append]

/-! ## The level and the hold counter along a run -/

theorem toInt_intCast (S : Int) : toInt (S : ℚ) = S := by
  simp [toInt]

theorem stateAt_lowPassCoeff (sr : ℚ) (side : AudioSampleBuffer) (g : NoiseGate) (j : Nat) :
    (stateAt sr side g j).lowPassCoeff =
      g.alpha * (stateAfter sr side g j).lowPassCoeff + (1 - g.alpha) * mixAt side j := by
  simp only [stateAt, updateLevel]
  split_ifs <;> rfl

theorem stateAfter_succ_lowPassCoeff (sr : ℚ) (side : AudioSampleBuffer) (g : NoiseGate)
    (j : Nat) :
    (stateAfter sr side g (j + 1)).lowPassCoeff = (stateAt sr side g j).lowPassCoeff := by
  show (countDown (stateAt sr side g j)).lowPassCoeff = _
  unfold countDown
  split_ifs <;> rfl

theorem stateAt_sampleCountDown (sr : ℚ) (side : AudioSampleBuffer) (g : NoiseGate) (j : Nat) :
    (stateAt sr side g j).sampleCountDown =
      if g.threshold ≤ (stateAt sr side g j).lowPassCoeff then toInt sr
      else (stateAfter sr side g j).sampleCountDown := by
  simp only [stateAt, updateLevel, ge_iff_le]
  split_ifs <;> simp_all

theorem stateAfter_succ_sampleCountDown (sr : ℚ) (side : AudioSampleBuffer) (g : NoiseGate)
    (j : Nat) :
    (stateAfter sr side g (j + 1)).sampleCountDown =
      if (stateAt sr side g j).sampleCountDown > 0 then (stateAt sr side g j).sampleCountDown - 1
      else (stateAt sr side g j).sampleCountDown := by
  show (countDown (stateAt sr side g j)).sampleCountDown = _
  unfold countDown
  split_ifs <;> rfl

theorem processBlock_state (sr : ℚ) (n : Nat) (side : AudioSampleBuffer) (g : NoiseGate)
    (main : AudioSampleBuffer) (hside : side ≠ []) (g1 : NoiseGate) (out : AudioSampleBuffer)
    (h : processBlock sr n side g main = some (g1, out)) : g1 = stateAfter sr side g n := by
  obtain ⟨out1, hrun, -⟩ := processBlock_run sr n side g main hside
  rw [hrun] at h
  simp only [Option.some.injEq, Prod.mk.injEq] at h
  exact h.1.symm

/-- With a sample rate whose integer part is `S ≥ 1` and a start counter of `0`,
the counter after `n` frames exceeds `m ≥ 0` exactly when some earlier frame `k`
reached the threshold and `n - k + m < S`. -/
theorem counter_after_iff (sr : ℚ) (S : Int) (hS : 1 ≤ S) (hsr : toInt sr = S)
    (side : AudioSampleBuffer) (g : NoiseGate) (hg : g.sampleCountDown = 0) (n : Nat) :
    0 ≤ (stateAfter sr side g n).sampleCountDown ∧
    ∀ m : Int, 0 ≤ m → (m < (stateAfter sr side g n).sampleCountDown ↔
      ∃ k, k < n ∧ g.threshold ≤ (stateAt sr side g k).lowPassCoeff ∧
        ((n : Int) - (k : Int) + m < S)) := by
  induction n with
  | zero =>
    refine ⟨by simp [stateAfter, hg], fun m hm => ?_⟩
    simp only [stateAfter, hg]
    constructor
    · intro h; omega
    · rintro ⟨k, hk, -⟩; omega
  | succ n ih =>
    obtain ⟨h0, hiff⟩ := ih
    rw [stateAfter_succ_sampleCountDown, stateAt_sampleCountDown, hsr]
    by_cases hd : g.threshold ≤ (stateAt sr side g n).lowPassCoeff
    · simp only [hd, if_true]
      have hpos : S > 0 := by omega
      simp only [hpos, if_true]
      refine ⟨by omega, fun m hm => ⟨fun h => ⟨n, by omega, hd, by push_cast; omega⟩, ?_⟩⟩
      rintro ⟨k, hk, -, hlt⟩
      push_cast at hlt
      omega
    · simp only [hd, if_false]
      by_cases hc : (stateAfter sr side g n).sampleCountDown > 0
      · simp only [hc, if_true]
        refine ⟨by omega, fun m hm => ?_⟩
        constructor
        · intro h
          obtain ⟨k, hk, hdk, hlt⟩ := (hiff (m + 1) (by omega)).mp (by omega)
          exact ⟨k, by omega, hdk, by push_cast; omega⟩
        · rintro ⟨k, hk, hdk, hlt⟩
          have hkn : k ≠ n := fun h => hd (h ▸ hdk)
          push_cast at hlt
          have := (hiff (m + 1) (by omega)).mpr ⟨k, by omega, hdk, by omega⟩
          omega
      · simp only [hc, if_false]
        refine ⟨h0, fun m hm => ?_⟩
        constructor
        · intro h; omega
        · rintro ⟨k, hk, hdk, hlt⟩
          have hkn : k ≠ n := fun h => hd (h ▸ hdk)
          push_cast at hlt
          have := (hiff (m + 1) (by omega)).mpr ⟨k, by omega, hdk, by omega⟩
          omega

/-- Under the same assumptions the gate is open at frame `j` exactly when one of
the last `S` frames, `j` included, reached the threshold. -/
theorem open_at_iff (sr : ℚ) (S : Int) (hS : 1 ≤ S) (hsr : toInt sr = S)
    (side : AudioSampleBuffer) (g : NoiseGate) (hg : g.sampleCountDown = 0) (j : Nat) :
    0 < (stateAt sr side g j).sampleCountDown ↔
      ∃ k, k ≤ j ∧ ((j : Int) - (k : Int) < S) ∧
        g.threshold ≤ (stateAt sr side g k).lowPassCoeff := by
  obtain ⟨h0, hiff⟩ := counter_after_iff sr S hS hsr side g hg j
  rw [stateAt_sampleCountDown, hsr]
  by_cases hd : g.threshold ≤ (stateAt sr side g j).lowPassCoeff
  · simp only [hd, if_true]
    exact ⟨fun _ => ⟨j, le_refl j, by omega, hd⟩, fun _ => by omega⟩
  · simp only [hd, if_false]
    rw [hiff 0 (le_refl 0)]
    constructor
    · rintro ⟨k, hk, hdk, hlt⟩
      exact ⟨k, by omega, by omega, hdk⟩
    · rintro ⟨k, hk, hlt, hdk⟩
      have hkn : k ≠ j := fun h => hd (h ▸ hdk)
      exact ⟨k, by omega, hdk, by omega⟩

/-! ## The side-chain mix -/

theorem foldl_readSample_bounds (side : AudioSampleBuffer) (j : Nat) (lo hi : ℚ) (k : Nat)
    (hk : k ≤ side.length)
    (h : ∀ i, i < side.length → lo ≤ readSample side i j ∧ readSample side i j ≤ hi) :
    (k : ℚ) * lo ≤ (List.range k).foldl (fun acc i => acc + readSample side i j) 0 ∧
    (List.range k).foldl (fun acc i => acc + readSample side i j) 0 ≤ (k : ℚ) * hi := by
  induction k with
  | zero => simp
  | succ k ih =>
    obtain ⟨h1, h2⟩ := ih (by omega)
    obtain ⟨h3, h4⟩ := h k (by omega)
    rw [List.range_succ, List.foldl_append]
    simp only [List.foldl_cons, List.foldl_nil]
    push_cast
    constructor <;> linarith

/-- The mix of a frame lies between any bounds that hold for all of its
side-chain samples. -/
theorem mixAt_bounds (side : AudioSampleBuffer) (j : Nat) (lo hi : ℚ) (hside : side ≠ [])
    (h : ∀ i, i < side.length → lo ≤ readSample side i j ∧ readSample side i j ≤ hi) :
    lo ≤ mixAt side j ∧ mixAt side j ≤ hi := by
  have hlen : 0 < side.length := List.length_pos.mpr hside
  have hne : ¬ side.length = 0 := by omega
  have hpos : (0 : ℚ) < (side.length : ℚ) := by exact_mod_cast hlen
  obtain ⟨h1, h2⟩ := foldl_readSample_bounds side j lo hi side.length (le_refl _) h
  simp only [mixAt, mixedSamples, hne, if_false, Option.getD_some]
  constructor
  · rw [le_div_iff₀ hpos]
    linarith
  · rw [div_le_iff₀ hpos]
    linarith

/-- The mix of a frame whose side-chain samples all equal `c` is `c`. -/
theorem mixAt_const (side : AudioSampleBuffer) (j : Nat) (c : ℚ) (hside : side ≠ [])
    (h : ∀ i, i < side.length → readSample side i j = c) : mixAt side j = c := by
  obtain ⟨h1, h2⟩ := mixAt_bounds side j c c hside (fun i hi => by rw [h i hi]; simp)
  exact le_antisymm h2 h1

/-! ## The smoothed level -/

/-- One step of the leaky integrator keeps the level between any bounds that
hold for the old level and the mix, for `alpha` in `[0, 1]`. -/
theorem updateLevel_bounds (alpha threshold sr : ℚ) (g : NoiseGate) (mix lo hi : ℚ)
    (ha0 : 0 ≤ alpha) (ha1 : alpha ≤ 1)
    (hl : lo ≤ g.lowPassCoeff ∧ g.lowPassCoeff ≤ hi) (hm : lo ≤ mix ∧ mix ≤ hi) :
    lo ≤ (updateLevel alpha threshold sr g mix).lowPassCoeff ∧
    (updateLevel alpha threshold sr g mix).lowPassCoeff ≤ hi := by
  have hlev : (updateLevel alpha threshold sr g mix).lowPassCoeff =
      alpha * g.lowPassCoeff + (1 - alpha) * mix := by
    simp only [updateLevel]
    split_ifs <;> rfl
  rw [hlev]
  have hb : 0 ≤ 1 - alpha := by linarith
  constructor
  · nlinarith [mul_le_mul_of_nonneg_left hl.1 ha0, mul_le_mul_of_nonneg_left hm.1 hb]
  · nlinarith [mul_le_mul_of_nonneg_left hl.2 ha0, mul_le_mul_of_nonneg_left hm.2 hb]

/-- Closed form of the level under a constant mix. -/
theorem stateAfter_level_const (sr : ℚ) (side : AudioSampleBuffer) (g : NoiseGate) (c : ℚ)
    (n : Nat) (h : ∀ j, j < n → mixAt side j = c) :
    (stateAfter sr side g n).lowPassCoeff = c + g.alpha ^ n * (g.lowPassCoeff - c) := by
  induction n with
  | zero => simp [stateAfter]
  | succ n ih =>
    rw [stateAfter_succ_lowPassCoeff, stateAt_lowPassCoeff, ih (fun j hj => h j (by omega)),
      h n (by omega)]
    ring

/-! ## What a returning run returns -/

theorem processBlock_eq_some (sr : ℚ) (n : Nat) (side : AudioSampleBuffer) (g : NoiseGate)
    (main : AudioSampleBuffer) (g1 : NoiseGate) (out : AudioSampleBuffer)
    (h : processBlock sr n side g main = some (g1, out)) :
    g1 = stateAfter sr side g n ∧ (side ≠ [] ∨ n = 0) := by
  by_cases hside : side = []
  · cases n with
    | zero =>
      simp only [processBlock, List.range_zero, List.foldlM_nil] at h
      have h2 : (g, main) = (g1, out) := by
        simpa using h
      simp only [Prod.mk.injEq] at h2
      exact ⟨h2.1.symm, Or.inr rfl⟩
    | succ n =>
      exfalso
      rw [processBlock_succ] at h
      subst hside
      cases hp : processBlock sr n [] g main with
      | none => simp [hp] at h
      | some acc => simp [hp, processSample, mixedSamples] at h
  · exact ⟨processBlock_state sr n side g main hside g1 out h, Or.inl hside⟩

/-! ## The hold counter without a detection -/

/-- While no frame reaches the threshold the counter runs down from its start
value `h ≥ 0` and stops at `0`. -/
theorem counter_no_detection (sr : ℚ) (side : AudioSampleBuffer) (g : NoiseGate) (n : Nat)
    (hh : 0 ≤ g.sampleCountDown)
    (hno : ∀ k, k < n → ¬ g.threshold ≤ (stateAt sr side g k).lowPassCoeff) :
    (stateAfter sr side g n).sampleCountDown = max (g.sampleCountDown - (n : Int)) 0 := by
  induction n with
  | zero => simp [stateAfter, hh]
  | succ n ih =>
    have ih1 := ih (fun k hk => hno k (by omega))
    rw [stateAfter_succ_sampleCountDown, stateAt_sampleCountDown]
    simp only [hno n (by omega), if_false, ih1]
    push_cast
    split_ifs with hc
    · omega
    · omega

/-! ## Detections -/

theorem mixAt_of_mixedSamples (side : AudioSampleBuffer) (j : Nat) (m : ℚ)
    (h : mixedSamples side j = some m) : mixAt side j = m := by
  simp only [mixAt, h, Option.getD_some]

theorem ne_nil_of_mixedSamples (side : AudioSampleBuffer) (j : Nat) (m : ℚ)
    (h : mixedSamples side j = some m) : side ≠ [] := by
  intro hnil
  subst hnil
  simp [mixedSamples] at h

theorem detectsAt_iff (sr : ℚ) (side : AudioSampleBuffer) (g : NoiseGate)
    (main : AudioSampleBuffer) (hside : side ≠ []) (k : Nat) :
    detectsAt sr side g main k ↔ g.threshold ≤ (stateAt sr side g k).lowPassCoeff := by
  obtain ⟨out, hrun, -⟩ := processBlock_run sr (k + 1) side g main hside
  unfold detectsAt
  rw [hrun, ← stateAfter_succ_lowPassCoeff]
  constructor
  · rintro ⟨gk, outk, heq, hge⟩
    simp only [Option.some.injEq, Prod.mk.injEq] at heq
    rw [heq.1]
    exact hge
  · intro h
    exact ⟨_, _, rfl, h⟩

/-- The output of frame `j` is the input when frame `j` itself is a detection
and the integer part of the sample rate is at least 1. -/
theorem readSample_of_detection (sr : ℚ) (S : Int) (hS : 1 ≤ S) (hsr : toInt sr = S)
    (side : AudioSampleBuffer) (g : NoiseGate) (main out : AudioSampleBuffer) (n : Nat)
    (hread : ∀ i j, readSample out i j =
      if j < n ∧ (stateAt sr side g j).sampleCountDown ≤ 0 then 0 else readSample main i j)
    (i j : Nat) (hd : g.threshold ≤ (stateAt sr side g j).lowPassCoeff) :
    readSample out i j = readSample main i j := by
  rw [hread]
  have hcnt : (stateAt sr side g j).sampleCountDown = S := by
    rw [stateAt_sampleCountDown, hsr]
    simp only [hd, if_true]
  have : ¬ (stateAt sr side g j).sampleCountDown ≤ 0 := by omega
  simp only [this, and_false, if_false]

/-! ## Runs on parts of a block -/

theorem readSample_map_take (b : AudioSampleBuffer) (n i j : Nat) (hj : j < n) :
    readSample (b.map (List.take n)) i j = readSample b i j := by
  unfold readSample
  by_cases hi : i < b.length
  · simp [List.getD_eq_getElem?_getD, List.getElem?_eq_getElem hi, List.getElem?_take_of_lt hj]
  · simp [List.getD_eq_getElem?_getD, List.getElem?_eq_none (Nat.le_of_not_lt hi)]

theorem readSample_map_drop (b : AudioSampleBuffer) (n i j : Nat) :
    readSample (b.map (List.drop n)) i j = readSample b i (n + j) := by
  unfold readSample
  by_cases hi : i < b.length
  · simp [List.getD_eq_getElem?_getD, List.getElem?_eq_getElem hi, List.getElem?_drop]
  · simp [List.getD_eq_getElem?_getD, List.getElem?_eq_none (Nat.le_of_not_lt hi)]

theorem mixAt_congr (side side2 : AudioSampleBuffer) (j j2 : Nat)
    (hlen : side2.length = side.length)
    (h : ∀ i, readSample side2 i j2 = readSample side i j) :
    mixAt side2 j2 = mixAt side j := by
  have hf : (fun (acc : ℚ) (i : Nat) => acc + readSample side2 i j2)
      = (fun (acc : ℚ) (i : Nat) => acc + readSample side i j) := by
    funext acc i
    rw [h i]
  simp only [mixAt, mixedSamples, hlen, hf]

theorem stateAfter_congr (sr : ℚ) (side side2 : AudioSampleBuffer) (g : NoiseGate) (n : Nat)
    (h : ∀ j, j < n → mixAt side2 j = mixAt side j) :
    stateAfter sr side2 g n = stateAfter sr side g n := by
  induction n with
  | zero => rfl
  | succ n ih =>
    simp only [stateAfter]
    rw [ih (fun j hj => h j (by omega)), h n (by omega)]

theorem stateAfter_add (sr : ℚ) (side side2 : AudioSampleBuffer) (g : NoiseGate) (n1 n2 : Nat)
    (h : ∀ j, j < n2 → mixAt side2 j = mixAt side (n1 + j)) :
    stateAfter sr side2 (stateAfter sr side g n1) n2 = stateAfter sr side g (n1 + n2) := by
  induction n2 with
  | zero => rfl
  | succ n ih =>
    show countDown (updateLevel (stateAfter sr side g n1).alpha (stateAfter sr side g n1).threshold
      sr (stateAfter sr side2 (stateAfter sr side g n1) n) (mixAt side2 n)) =
      countDown (updateLevel g.alpha g.threshold sr (stateAfter sr side g (n1 + n))
        (mixAt side (n1 + n)))
    rw [ih (fun j hj => h j (by omega)), h n (by omega), (stateAfter_alpha sr side g n1).1,
      (stateAfter_alpha sr side g n1).2]

/-! ## C1: `processBlock` is the fold of the specification's step -/

/-- C1. For every block length, every main bus, every side-chain with at least
one channel, every starting processor (level, counter, threshold, alpha) and
every sample rate, `processBlock` returns, and what it returns is the
left-to-right fold of the specification's per-sample step over the frames of
the block, run with the threshold and alpha the processor held when the block
started: the final level and counter are the fold's final state, the
parameters are untouched, the main bus keeps its shape, sample `j < n` of main
channel `i` is entry `i` of the fold's `j`-th output frame, and samples beyond
the block are left alone. -/
theorem processBlock_refines_specFold (sampleRate : ℚ) (numSamples : Nat)
    (sideChainInput : AudioSampleBuffer) (g : NoiseGate) (mainInputOutput : AudioSampleBuffer)
    (hside : sideChainInput ≠ []) :
    ∃ g1 out, processBlock sampleRate numSamples sideChainInput g mainInputOutput = some (g1, out) ∧
      (g1.lowPassCoeff, g1.sampleCountDown) =
        (specFold g.alpha g.threshold sampleRate (g.lowPassCoeff, g.sampleCountDown)
          ((List.range numSamples).map (frameAt mainInputOutput sideChainInput))).1 ∧
      g1.alpha = g.alpha ∧ g1.threshold = g.threshold ∧
      out.length = mainInputOutput.length ∧
      (∀ i, (out.getD i []).length = (mainInputOutput.getD i []).length) ∧
      (∀ i j, j < numSamples → readSample out i j =
        (((specFold g.alpha g.threshold sampleRate (g.lowPassCoeff, g.sampleCountDown)
          ((List.range numSamples).map (frameAt mainInputOutput sideChainInput))).2.getD j []).getD
            i 0)) ∧
      (∀ i j, numSamples ≤ j → readSample out i j = readSample mainInputOutput i j) := by
  obtain ⟨out, hrun, hlen, hch, hread⟩ :=
    processBlock_run sampleRate numSamples sideChainInput g mainInputOutput hside
  refine ⟨_, out, hrun, ?_, (stateAfter_alpha _ _ _ _).1, (stateAfter_alpha _ _ _ _).2, hlen, hch,
    ?_, ?_⟩
  · rw [specFold_range]
  · intro i j hj
    rw [specFold_range, hread]
    simp only [List.getD_eq_getElem?_getD, List.getElem?_map, List.getElem?_range hj,
      Option.map_some', Option.getD_some]
    unfold readSample
    by_cases hi : i < mainInputOutput.length
    · simp only [List.getD_eq_getElem?_getD, List.getElem?_eq_getElem hi, Option.map_some',
        Option.getD_some, hj, true_and]
      by_cases hc : (stateAt sampleRate sideChainInput g j).sampleCountDown ≤ 0
      · have : ¬ (stateAt sampleRate sideChainInput g j).sampleCountDown > 0 := by omega
        simp only [hc, this, if_true, if_false]
      · have : (stateAt sampleRate sideChainInput g j).sampleCountDown > 0 := by omega
        simp only [hc, this, if_true, if_false]
    · simp [List.getElem?_eq_none (Nat.le_of_not_lt hi)]
  · intro i j hj
    rw [hread]
    have : ¬ j < numSamples := by omega
    simp only [this, false_and, if_false]

/-- C1, instance: a stereo side-chain with one loud frame, a two-channel main
bus, three frames at sample rate 2. -/
theorem processBlock_refines_specFold_witness :
    ([[1, 0, 0], [1, 0, 0]] : AudioSampleBuffer) ≠ [] ∧
    ∃ g1 out, processBlock 2 3 [[1, 0, 0], [1, 0, 0]] ⟨1 / 2, 0, 0, 0⟩ [[5, 6, 7], [8, 9, 10]]
        = some (g1, out) ∧
      (g1.lowPassCoeff, g1.sampleCountDown) =
        (specFold 0 (1 / 2) 2 (0, 0)
          ((List.range 3).map (frameAt [[5, 6, 7], [8, 9, 10]] [[1, 0, 0], [1, 0, 0]]))).1 ∧
      g1.alpha = 0 ∧ g1.threshold = 1 / 2 ∧
      out.length = 2 ∧
      (∀ i, (out.getD i []).length = (([[5, 6, 7], [8, 9, 10]] : AudioSampleBuffer).getD i []).length) ∧
      (∀ i j, j < 3 → readSample out i j =
        (((specFold 0 (1 / 2) 2 (0, 0)
          ((List.range 3).map (frameAt [[5, 6, 7], [8, 9, 10]] [[1, 0, 0], [1, 0, 0]]))).2.getD j []).getD
            i 0)) ∧
      (∀ i j, 3 ≤ j → readSample out i j = readSample [[5, 6, 7], [8, 9, 10]] i j) :=
  ⟨List.cons_ne_nil _ _,
    processBlock_refines_specFold 2 3 [[1, 0, 0], [1, 0, 0]] ⟨1 / 2, 0, 0, 0⟩
      [[5, 6, 7], [8, 9, 10]] (List.cons_ne_nil _ _)⟩

/-! ## C2: the gate is open exactly during the hold window of a detection -/

/-- C2. From the reset state, with an integer sample rate `S ≥ 1` that is an
`int` (`S < 2 ^ 31`, the range in which the conversion of line 87 is defined) and a
side-chain of at least one channel, `processBlock` returns and output sample
`j` of every main channel is the input sample when some frame `k ≤ j` with
`j - k < S` is a detection (its updated level is at least the threshold), and
`0` when there is none.  A detection reloads the counter whatever it held: the
counter after a detecting frame is `S - 1`.  Counted from the last detection
`k`, that frame included, the gate is open for exactly `S` frames: with no
detection in `k+1 .. j`, output `j` is the input when `j - k < S` and `0` when
`j - k ≥ S`. -/
theorem gate_open_iff_recent_detection (S : Int) (hS : 1 ≤ S) (_hS2 : S < 2 ^ 31) (sr0 : ℚ) (maxBlockSize : Int)
    (numSamples : Nat) (sideChainInput : AudioSampleBuffer) (g : NoiseGate)
    (mainInputOutput : AudioSampleBuffer) (hside : sideChainInput ≠ []) :
    ∃ g1 out,
      processBlock (S : ℚ) numSamples sideChainInput (prepareToPlay sr0 maxBlockSize g)
        mainInputOutput = some (g1, out) ∧
      (∀ i j, j < numSamples →
        ((∃ k, k ≤ j ∧ (j : Int) - (k : Int) < S ∧
            detectsAt (S : ℚ) sideChainInput (prepareToPlay sr0 maxBlockSize g)
              mainInputOutput k) →
          readSample out i j = readSample mainInputOutput i j) ∧
        ((¬ ∃ k, k ≤ j ∧ (j : Int) - (k : Int) < S ∧
            detectsAt (S : ℚ) sideChainInput (prepareToPlay sr0 maxBlockSize g)
              mainInputOutput k) →
          readSample out i j = 0)) ∧
      (∀ k, detectsAt (S : ℚ) sideChainInput (prepareToPlay sr0 maxBlockSize g)
            mainInputOutput k →
        ∃ gk outk,
          processBlock (S : ℚ) (k + 1) sideChainInput (prepareToPlay sr0 maxBlockSize g)
            mainInputOutput = some (gk, outk) ∧ gk.sampleCountDown = S - 1) ∧
      (∀ i k j, k ≤ j → j < numSamples →
        detectsAt (S : ℚ) sideChainInput (prepareToPlay sr0 maxBlockSize g) mainInputOutput k →
        (∀ l, k < l → l ≤ j →
          ¬ detectsAt (S : ℚ) sideChainInput (prepareToPlay sr0 maxBlockSize g)
            mainInputOutput l) →
        ((j : Int) - (k : Int) < S → readSample out i j = readSample mainInputOutput i j) ∧
        (S ≤ (j : Int) - (k : Int) → readSample out i j = 0)) := by
  have hsr : toInt (S : ℚ) = S := toInt_intCast S
  have hg : (prepareToPlay sr0 maxBlockSize g).sampleCountDown = 0 := rfl
  have hth : (prepareToPlay sr0 maxBlockSize g).threshold = g.threshold := rfl
  obtain ⟨out, hrun, -, -, hread⟩ :=
    processBlock_run (S : ℚ) numSamples sideChainInput (prepareToPlay sr0 maxBlockSize g)
      mainInputOutput hside
  have hopen := open_at_iff (S : ℚ) S hS hsr sideChainInput (prepareToPlay sr0 maxBlockSize g) hg
  have key : ∀ i j, j < numSamples →
      ((∃ k, k ≤ j ∧ (j : Int) - (k : Int) < S ∧
            detectsAt (S : ℚ) sideChainInput (prepareToPlay sr0 maxBlockSize g)
              mainInputOutput k) →
          readSample out i j = readSample mainInputOutput i j) ∧
        ((¬ ∃ k, k ≤ j ∧ (j : Int) - (k : Int) < S ∧
            detectsAt (S : ℚ) sideChainInput (prepareToPlay sr0 maxBlockSize g)
              mainInputOutput k) →
          readSample out i j = 0) := by
    intro i j hj
    rw [hread]
    simp only [detectsAt_iff _ _ _ _ hside, ← hopen j, hj, true_and]
    constructor
    · intro h
      have : ¬ (stateAt (S : ℚ) sideChainInput (prepareToPlay sr0 maxBlockSize g) j).sampleCountDown
          ≤ 0 := by omega
      simp only [this, if_false]
    · intro h
      have : (stateAt (S : ℚ) sideChainInput (prepareToPlay sr0 maxBlockSize g) j).sampleCountDown
          ≤ 0 := by omega
      simp only [this, if_true]
  refine ⟨_, out, hrun, key, ?_, ?_⟩
  · intro k hk
    rw [detectsAt_iff _ _ _ _ hside] at hk
    obtain ⟨outk, hrunk, -⟩ :=
      processBlock_run (S : ℚ) (k + 1) sideChainInput (prepareToPlay sr0 maxBlockSize g)
        mainInputOutput hside
    refine ⟨_, outk, hrunk, ?_⟩
    rw [stateAfter_succ_sampleCountDown, stateAt_sampleCountDown, hsr]
    have hpos : S > 0 := by omega
    simp only [hk, if_true, hpos]
  · intro i k j hkj hj hk hlast
    constructor
    · intro hlt
      exact (key i j hj).1 ⟨k, hkj, hlt, hk⟩
    · intro hge
      apply (key i j hj).2
      rintro ⟨l, hlj, hlt, hl⟩
      by_cases hkl : k < l
      · exact hlast l hkl hlj hl
      · omega

/-! ## C3: the impulse scenario -/

/-- C3. Sample rate 44100, threshold 0.5, alpha 0, reset state, a side-chain
whose mix is 1 at frame 0 and 0 at every later frame of the block: the
threshold test of frame 0 loads the hold counter with 44100 (and the frame
leaves it at 44099 after its decrement), `processBlock` returns for every block
length, output samples 0 .. 44099 are the input samples, and every output
sample from index 44100 on is 0. -/
theorem impulse_scenario (sr0 : ℚ) (maxBlockSize : Int) (numSamples : Nat)
    (sideChainInput : AudioSampleBuffer) (g : NoiseGate) (mainInputOutput : AudioSampleBuffer)
    (hthr : g.threshold = 1 / 2) (halpha : g.alpha = 0)
    (h0 : mixedSamples sideChainInput 0 = some 1)
    (hlater : ∀ j, 0 < j → j < numSamples → mixedSamples sideChainInput j = some 0) :
    (updateLevel g.alpha g.threshold 44100 (prepareToPlay sr0 maxBlockSize g) 1).sampleCountDown
        = 44100 ∧
    (∃ g0 out0, processBlock 44100 1 sideChainInput (prepareToPlay sr0 maxBlockSize g)
        mainInputOutput = some (g0, out0) ∧ g0.sampleCountDown = 44099 ∧ g0.lowPassCoeff = 1) ∧
    ∃ g1 out, processBlock 44100 numSamples sideChainInput (prepareToPlay sr0 maxBlockSize g)
        mainInputOutput = some (g1, out) ∧
      ∀ i j, j < numSamples →
        (j < 44100 → readSample out i j = readSample mainInputOutput i j) ∧
        (44100 ≤ j → readSample out i j = 0) := by
  have hside : sideChainInput ≠ [] := ne_nil_of_mixedSamples _ _ _ h0
  have hsr : toInt (44100 : ℚ) = 44100 := by
    have := toInt_intCast 44100
    simpa using this
  have hg : (prepareToPlay sr0 maxBlockSize g).sampleCountDown = 0 := rfl
  have hth : (prepareToPlay sr0 maxBlockSize g).threshold = 1 / 2 := hthr
  have hal : (prepareToPlay sr0 maxBlockSize g).alpha = 0 := halpha
  have hlevel : ∀ j, j < numSamples →
      (stateAt 44100 sideChainInput (prepareToPlay sr0 maxBlockSize g) j).lowPassCoeff =
        if j = 0 then 1 else 0 := by
    intro j hj
    rw [stateAt_lowPassCoeff, hal]
    by_cases hj0 : j = 0
    · subst hj0
      simp [mixAt_of_mixedSamples _ _ _ h0]
    · simp [mixAt_of_mixedSamples _ _ _ (hlater j (Nat.pos_of_ne_zero hj0) hj), hj0]
  have hopen := open_at_iff 44100 44100 (by norm_num) hsr sideChainInput
    (prepareToPlay sr0 maxBlockSize g) hg
  refine ⟨?_, ?_, ?_⟩
  · simp only [updateLevel, halpha, hthr, hsr, prepareToPlay]
    norm_num
  · obtain ⟨out0, hrun0, -⟩ := processBlock_run 44100 1 sideChainInput
      (prepareToPlay sr0 maxBlockSize g) mainInputOutput hside
    refine ⟨_, out0, hrun0, ?_, ?_⟩
    · rw [stateAfter_succ_sampleCountDown, stateAt_sampleCountDown, stateAt_lowPassCoeff, hal,
        hth, hsr, mixAt_of_mixedSamples _ _ _ h0]
      norm_num
    · rw [stateAfter_succ_lowPassCoeff, stateAt_lowPassCoeff, hal,
        mixAt_of_mixedSamples _ _ _ h0]
      norm_num
  · obtain ⟨out, hrun, -, -, hread⟩ := processBlock_run 44100 numSamples sideChainInput
      (prepareToPlay sr0 maxBlockSize g) mainInputOutput hside
    refine ⟨_, out, hrun, fun i j hj => ?_⟩
    have hiff : 0 < (stateAt 44100 sideChainInput (prepareToPlay sr0 maxBlockSize g)
        j).sampleCountDown ↔ j < 44100 := by
      rw [hopen j]
      constructor
      · rintro ⟨k, hkj, hlt, hk⟩
        rw [hlevel k (by omega), hth] at hk
        by_cases hk0 : k = 0
        · subst hk0
          omega
        · simp only [hk0, if_false] at hk
          norm_num at hk
      · intro hlt
        refine ⟨0, Nat.zero_le j, by omega, ?_⟩
        rw [hlevel 0 (by omega), hth]
        norm_num
    rw [hread]
    constructor
    · intro hlt
      have : ¬ (stateAt 44100 sideChainInput (prepareToPlay sr0 maxBlockSize g)
          j).sampleCountDown ≤ 0 := by
        have := hiff.mpr hlt
        omega
      simp only [this, and_false, if_false]
    · intro hge
      have : (stateAt 44100 sideChainInput (prepareToPlay sr0 maxBlockSize g)
          j).sampleCountDown ≤ 0 := by
        by_contra hc
        have := hiff.mp (by omega)
        omega
      simp only [hj, this, and_self, if_true]

/-! ## C4: a constant side-chain above the threshold -/

/-- C4, as stated, fails: with `alpha = 1/2`, threshold `0.9`, sample rate `1`
and the constant side-chain `1`, one second (one sample) of input has been
processed before frame 1, yet frame 1 is silenced (the level is `3/4`); with
`alpha = 1` the level never leaves `0` and the gate never opens; with sample
rate `0` a detection opens nothing. -/
theorem constant_above_threshold_counterexample :
    (processBlock 1 2 [[1, 1]] (prepareToPlay 1 2 ⟨9 / 10, 1 / 2, 0, 0⟩) [[5, 5]]
        = some (⟨9 / 10, 1 / 2, 0, 3 / 4⟩, [[0, 0]]) ∧
      readSample [[0, 0]] 0 1 ≠ readSample [[5, 5]] 0 1) ∧
    (processBlock 1 2 [[1, 1]] (prepareToPlay 1 2 ⟨1 / 2, 1, 0, 0⟩) [[5, 5]]
        = some (⟨1 / 2, 1, 0, 0⟩, [[0, 0]])) ∧
    (processBlock 0 1 [[1]] (prepareToPlay 0 1 ⟨1 / 2, 0, 0, 0⟩) [[5]]
        = some (⟨1 / 2, 0, 0, 1⟩, [[0]])) := by
  refine ⟨⟨?_, ?_⟩, ?_, ?_⟩ <;> decide!

/-- C4, amended. For `alpha` in `[0, 1]`, a threshold `≥ 0`, a constant
side-chain value `c` above the threshold (finite frames), an integer sample rate
`1 ≤ S < 2 ^ 31` and a block run from the reset state on a side-chain that is
`c` on every channel and frame: `processBlock` returns, and from any detection
on the gate stays open, that is every output sample at or after a detecting
frame is the input sample.  Nothing is said on when the first detection comes:
that is set by `alpha`, the threshold and `c`, not by `S`. -/
theorem constant_above_threshold_opens (S : Int) (hS : 1 ≤ S) (_hS2 : S < 2 ^ 31) (c sr0 : ℚ)
    (maxBlockSize : Int) (numSamples : Nat) (sideChainInput : AudioSampleBuffer) (g : NoiseGate)
    (mainInputOutput : AudioSampleBuffer)
    (hα0 : 0 ≤ g.alpha) (hα1 : g.alpha ≤ 1) (hθ : 0 ≤ g.threshold) (hc : g.threshold < c)
    (hside : sideChainInput ≠ [])
    (hconst : ∀ i j, i < sideChainInput.length → j < numSamples →
      readSample sideChainInput i j = c)
    (_hfin : ∀ j, j < numSamples → finiteFrame sideChainInput j) :
    ∃ g1 out,
      processBlock (S : ℚ) numSamples sideChainInput (prepareToPlay sr0 maxBlockSize g)
        mainInputOutput = some (g1, out) ∧
      ∀ k, k < numSamples →
        detectsAt (S : ℚ) sideChainInput (prepareToPlay sr0 maxBlockSize g) mainInputOutput k →
        ∀ i j, k ≤ j → j < numSamples →
          readSample out i j = readSample mainInputOutput i j := by
  have hcpos : 0 < c := lt_of_le_of_lt hθ hc
  have hsr : toInt (S : ℚ) = S := toInt_intCast S
  have hal : (prepareToPlay sr0 maxBlockSize g).alpha = g.alpha := rfl
  have hth : (prepareToPlay sr0 maxBlockSize g).threshold = g.threshold := rfl
  have hl0 : (prepareToPlay sr0 maxBlockSize g).lowPassCoeff = 0 := rfl
  obtain ⟨out, hrun, -, -, hread⟩ :=
    processBlock_run (S : ℚ) numSamples sideChainInput (prepareToPlay sr0 maxBlockSize g)
      mainInputOutput hside
  have hmix : ∀ j, j < numSamples → mixAt sideChainInput j = c := fun j hj =>
    mixAt_const sideChainInput j c hside (fun i hi => hconst i j hi hj)
  have hlevel : ∀ j, j < numSamples →
      (stateAt (S : ℚ) sideChainInput (prepareToPlay sr0 maxBlockSize g) j).lowPassCoeff
        = c - g.alpha ^ (j + 1) * c := by
    intro j hj
    rw [← stateAfter_succ_lowPassCoeff,
      stateAfter_level_const (S : ℚ) sideChainInput _ c (j + 1) (fun k hk => hmix k (by omega)),
      hal, hl0]
    ring
  refine ⟨_, out, hrun, ?_⟩
  intro k hk hdet i j hkj hj
  rw [detectsAt_iff _ _ _ _ hside, hth, hlevel k hk] at hdet
  apply readSample_of_detection (S : ℚ) S hS hsr sideChainInput _ mainInputOutput out
    numSamples hread
  rw [hth, hlevel j hj]
  have hpow : g.alpha ^ (j + 1) ≤ g.alpha ^ (k + 1) := pow_le_pow_of_le_one hα0 hα1 (by omega)
  nlinarith

/-! ## C5: a silent side-chain -/

/-- C6, as stated, fails in the float32 arithmetic of the source once the
previous level is not finite, which finite samples reach: with `alpha = 0` and
two channels holding `3 * 2 ^ 126` in frame 0 and `1` in frame 1, the channel
sum of frame 0 overflows, the level after frame 0 is `+inf`, and frame 1
computes `0 * inf = NaN`, not its mix `1`. -/
theorem alpha_zero_counterexample :
    levelAfter32 (Float32.finite 0)
      [[Float32.finite (3 * 2 ^ 126), Float32.finite 1],
       [Float32.finite (3 * 2 ^ 126), Float32.finite 1]] (Float32.finite 0) 1
      = Float32.infinite false ∧
    mixedSamples32
      [[Float32.finite (3 * 2 ^ 126), Float32.finite 1],
       [Float32.finite (3 * 2 ^ 126), Float32.finite 1]] 1 = Float32.finite 1 ∧
    levelAfter32 (Float32.finite 0)
      [[Float32.finite (3 * 2 ^ 126), Float32.finite 1],
       [Float32.finite (3 * 2 ^ 126), Float32.finite 1]] (Float32.finite 0) 2
      = Float32.nan ∧
    updateLevel32 (Float32.finite 0) (Float32.infinite false) (Float32.finite 1)
      = Float32.nan := by
  refine ⟨?_, ?_, ?_, ?_⟩ <;> decide!

/-- C6, amended. With `alpha = 0` and a side-chain of at least one channel
whose frames up to `j` are finite, for every finite previous level (every
starting processor of the exact model), every threshold, counter and sample
rate and every frame `j`, the run through frame `j` returns and the smoothed
level it leaves is the side-chain mix of frame `j`.  Nothing else enters: a run
from any other starting processor with `alpha = 0`, at any sample rate, on any
finite side-chain with the same mix at frame `j`, leaves the same level after
frame `j`. -/
theorem alpha_zero_level_is_mix (sampleRate : ℚ) (j : Nat) (sideChainInput : AudioSampleBuffer)
    (g : NoiseGate) (mainInputOutput : AudioSampleBuffer) (hα : g.alpha = 0)
    (hside : sideChainInput ≠ [])
    (_hfin : ∀ k, k ≤ j → finiteFrame sideChainInput k) :
    ∃ gj outj, processBlock sampleRate (j + 1) sideChainInput g mainInputOutput
        = some (gj, outj) ∧
      mixedSamples sideChainInput j = some gj.lowPassCoeff ∧
      ∀ (sampleRate2 : ℚ) (sideChainInput2 : AudioSampleBuffer) (g2 : NoiseGate)
        (mainInputOutput2 : AudioSampleBuffer), g2.alpha = 0 →
        (∀ k, k ≤ j → finiteFrame sideChainInput2 k) →
        mixedSamples sideChainInput2 j = mixedSamples sideChainInput j →
        ∃ gj2 outj2, processBlock sampleRate2 (j + 1) sideChainInput2 g2 mainInputOutput2
            = some (gj2, outj2) ∧ gj2.lowPassCoeff = gj.lowPassCoeff := by
  have hlevel : ∀ (sr : ℚ) (side : AudioSampleBuffer) (g0 : NoiseGate), g0.alpha = 0 →
      (stateAfter sr side g0 (j + 1)).lowPassCoeff = mixAt side j := by
    intro sr side g0 h0
    rw [stateAfter_succ_lowPassCoeff, stateAt_lowPassCoeff, h0]
    ring
  obtain ⟨out, hrun, -⟩ :=
    processBlock_run sampleRate (j + 1) sideChainInput g mainInputOutput hside
  refine ⟨_, out, hrun, ?_, ?_⟩
  · rw [hlevel _ _ _ hα]
    exact mixedSamples_eq_some sideChainInput j hside
  · intro sr2 side2 g2 main2 hα2 _ hmix
    have hside2 : side2 ≠ [] := by
      rw [mixedSamples_eq_some sideChainInput j hside] at hmix
      exact ne_nil_of_mixedSamples _ _ _ hmix
    obtain ⟨out2, hrun2, -⟩ := processBlock_run sr2 (j + 1) side2 g2 main2 hside2
    refine ⟨_, out2, hrun2, ?_⟩
    rw [hlevel _ _ _ hα, hlevel _ _ _ hα2]
    unfold mixAt
    rw [hmix]

/-! ## C7: `alpha = 1` freezes the level -/

theorem stateAfter_counter_nonneg (sr : ℚ) (side : AudioSampleBuffer) (g : NoiseGate)
    (hsr : 0 ≤ toInt sr) (hg : 0 ≤ g.sampleCountDown) (n : Nat) :
    0 ≤ (stateAfter sr side g n).sampleCountDown := by
  induction n with
  | zero => exact hg
  | succ n ih =>
    rw [stateAfter_succ_sampleCountDown, stateAt_sampleCountDown]
    split_ifs <;> omega

/-- C8, as stated, fails for a negative sample rate: from the reset state one
frame at sample rate `-1` with threshold `0` is a detection, the counter is
loaded with `(int) -1 = -1`, is not decremented, and stays at `-1`. -/
theorem hold_counter_negative_counterexample :
    processBlock (-1) 1 [[0]] (prepareToPlay (-1) 1 ⟨0, 0, 0, 0⟩) [[5]]
      = some (⟨0, 0, -1, 0⟩, [[0]]) ∧
    Reachable (fun _ _ _ _ => True) ⟨0, 0, -1, 0⟩ ∧
    (⟨0, 0, -1, 0⟩ : NoiseGate).sampleCountDown < 0 := by
  have h : processBlock (-1) 1 [[0]] (prepareToPlay (-1) 1 ⟨0, 0, 0, 0⟩) [[5]]
      = some (⟨0, 0, -1, 0⟩, [[0]]) := by decide!
  exact ⟨h, Reachable.process (-1) 1 [[0]] _ [[5]] _ _ (Reachable.prepare (-1) 1 ⟨0, 0, 0, 0⟩)
    trivial h, by decide⟩

/-- C8, amended. In every state reachable from `prepareToPlay` by parameter
changes and `processBlock` calls whose sample rate converts to a non-negative
`int` (`0 ≤ (int) getSampleRate() < 2 ^ 31`: the conversion of line 87 is
defined and its value is not negative), for every input, threshold and alpha,
the hold counter is `≥ 0`.  Block lengths are arbitrary, so this covers the
state after every sample. -/
theorem hold_counter_nonneg (g : NoiseGate)
    (h : Reachable
      (fun sampleRate _ _ _ => 0 ≤ toInt sampleRate ∧ toInt sampleRate < 2 ^ 31) g) :
    0 ≤ g.sampleCountDown := by
  induction h with
  | prepare sr mbs g => exact le_refl _
  | setParameters g th al _ ih => exact ih
  | process sr n side g main g1 out _ hadm hrun ih =>
    rw [(processBlock_eq_some sr n side g main g1 out hrun).1]
    exact stateAfter_counter_nonneg sr side g hadm.1 ih n

/-! ## C9: the level and the range of the side-chain -/

theorem foldl_readSample_nonneg (side : AudioSampleBuffer) (j : Nat) (k : Nat)
    (hk : k ≤ side.length) (h : ∀ i, i < side.length → 0 ≤ readSample side i j) :
    0 ≤ (List.range k).foldl (fun acc i => acc + readSample side i j) 0 := by
  induction k with
  | zero => simp
  | succ k ih =>
    have h1 := ih (by omega)
    have h2 := h k (by omega)
    rw [List.range_succ, List.foldl_append]
    simp only [List.foldl_cons, List.foldl_nil]
    linarith

theorem foldl_readSample_nonpos (side : AudioSampleBuffer) (j : Nat) (k : Nat)
    (hk : k ≤ side.length) (h : ∀ i, i < side.length → readSample side i j ≤ 0) :
    (List.range k).foldl (fun acc i => acc + readSample side i j) 0 ≤ 0 := by
  induction k with
  | zero => simp
  | succ k ih =>
    have h1 := ih (by omega)
    have h2 := h k (by omega)
    rw [List.range_succ, List.foldl_append]
    simp only [List.foldl_cons, List.foldl_nil]
    linarith

theorem mixAt_nonneg (side : AudioSampleBuffer) (j : Nat)
    (h : ∀ i, i < side.length → 0 ≤ readSample side i j) : 0 ≤ mixAt side j := by
  unfold mixAt mixedSamples
  by_cases hlen : side.length = 0
  · simp [hlen]
  · simp only [hlen, if_false, Option.getD_some]
    exact div_nonneg (foldl_readSample_nonneg side j side.length (le_refl _) h)
      (Nat.cast_nonneg _)

theorem mixAt_nonpos (side : AudioSampleBuffer) (j : Nat)
    (h : ∀ i, i < side.length → readSample side i j ≤ 0) : mixAt side j ≤ 0 := by
  unfold mixAt mixedSamples
  by_cases hlen : side.length = 0
  · simp [hlen]
  · simp only [hlen, if_false, Option.getD_some]
    exact div_nonpos_of_nonpos_of_nonneg
      (foldl_readSample_nonpos side j side.length (le_refl _) h) (Nat.cast_nonneg _)

theorem updateLevel_nonneg (alpha threshold sr : ℚ) (g : NoiseGate) (mix : ℚ)
    (ha0 : 0 ≤ alpha) (ha1 : alpha ≤ 1) (hl : 0 ≤ g.lowPassCoeff) (hm : 0 ≤ mix) :
    0 ≤ (updateLevel alpha threshold sr g mix).lowPassCoeff := by
  have hlev : (updateLevel alpha threshold sr g mix).lowPassCoeff =
      alpha * g.lowPassCoeff + (1 - alpha) * mix := by
    simp only [updateLevel]
    split_ifs <;> rfl
  rw [hlev]
  have hb : 0 ≤ 1 - alpha := by linarith
  nlinarith [mul_nonneg ha0 hl, mul_nonneg hb hm]

theorem updateLevel_nonpos (alpha threshold sr : ℚ) (g : NoiseGate) (mix : ℚ)
    (ha0 : 0 ≤ alpha) (ha1 : alpha ≤ 1) (hl : g.lowPassCoeff ≤ 0) (hm : mix ≤ 0) :
    (updateLevel alpha threshold sr g mix).lowPassCoeff ≤ 0 := by
  have hlev : (updateLevel alpha threshold sr g mix).lowPassCoeff =
      alpha * g.lowPassCoeff + (1 - alpha) * mix := by
    simp only [updateLevel]
    split_ifs <;> rfl
  rw [hlev]
  have hb : 0 ≤ 1 - alpha := by linarith
  nlinarith [mul_nonneg ha0 (neg_nonneg.mpr hl), mul_nonneg hb (neg_nonneg.mpr hm)]

theorem stateAfter_level_nonneg (sr : ℚ) (side : AudioSampleBuffer) (g : NoiseGate) (n : Nat)
    (ha0 : 0 ≤ g.alpha) (ha1 : g.alpha ≤ 1)
    (hs : ∀ i j, i < side.length → j < n → 0 ≤ readSample side i j)
    (hl : 0 ≤ g.lowPassCoeff) : 0 ≤ (stateAfter sr side g n).lowPassCoeff := by
  induction n with
  | zero => exact hl
  | succ n ih =>
    rw [stateAfter_succ_lowPassCoeff]
    exact updateLevel_nonneg g.alpha g.threshold sr _ _ ha0 ha1
      (ih (fun i j hi hj => hs i j hi (by omega)))
      (mixAt_nonneg side n (fun i hi => hs i n hi (by omega)))

theorem stateAfter_level_nonpos (sr : ℚ) (side : AudioSampleBuffer) (g : NoiseGate) (n : Nat)
    (ha0 : 0 ≤ g.alpha) (ha1 : g.alpha ≤ 1)
    (hs : ∀ i j, i < side.length → j < n → readSample side i j ≤ 0)
    (hl : g.lowPassCoeff ≤ 0) : (stateAfter sr side g n).lowPassCoeff ≤ 0 := by
  induction n with
  | zero => exact hl
  | succ n ih =>
    rw [stateAfter_succ_lowPassCoeff]
    exact updateLevel_nonpos g.alpha g.threshold sr _ _ ha0 ha1
      (ih (fun i j hi hj => hs i j hi (by omega)))
      (mixAt_nonpos side n (fun i hi => hs i n hi (by omega)))

/-- C9, as stated, fails in the float32 arithmetic of the source: with
`alpha = 0.15f = 5033165 / 2 ^ 25`, both side-chain channels at `3/8` on every
frame (so every sample lies in `[0, 3/8]`) and the reset level `0`, the level
after nine frames is `3/8 + 2 ^ -25`, above the range of the input. -/
theorem level_range_counterexample :
    round32 (3 / 20) = .finite (5033165 / 33554432) ∧
    levelAfter32 (.finite (5033165 / 33554432))
      [List.replicate 9 (.finite (3 / 8)), List.replicate 9 (.finite (3 / 8))]
      (.finite 0) 9 = .finite (12582913 / 33554432) ∧
    (3 / 8 : ℚ) < 12582913 / 33554432 := by
  refine ⟨?_, ?_, ?_⟩ <;> decide!

/-- C9, amended. For `alpha` in `[0, 1]` the smoothed level stays on the side of
zero on which the side-chain lies.  One step maps a level `≥ 0` and a mix `≥ 0`
to a level `≥ 0`, and a level `≤ 0` and a mix `≤ 0` to a level `≤ 0`.  In every
state reachable from `prepareToPlay` by parameter changes and `processBlock`
calls made with `alpha` in `[0, 1]` on finite side-chain frames whose samples
are all `≥ 0` the level is `≥ 0`; likewise with `≤ 0`. -/
theorem level_keeps_sign :
    (∀ (alphaCopy thresholdCopy sampleRate : ℚ) (g : NoiseGate) (mixed : ℚ),
      0 ≤ alphaCopy → alphaCopy ≤ 1 →
      (0 ≤ g.lowPassCoeff → 0 ≤ mixed →
        0 ≤ (updateLevel alphaCopy thresholdCopy sampleRate g mixed).lowPassCoeff) ∧
      (g.lowPassCoeff ≤ 0 → mixed ≤ 0 →
        (updateLevel alphaCopy thresholdCopy sampleRate g mixed).lowPassCoeff ≤ 0)) ∧
    (∀ g : NoiseGate,
      Reachable (fun _ numSamples sideChainInput g0 =>
        0 ≤ g0.alpha ∧ g0.alpha ≤ 1 ∧
        (∀ j, j < numSamples → finiteFrame sideChainInput j) ∧
        ∀ i j, i < sideChainInput.length → j < numSamples →
          0 ≤ readSample sideChainInput i j) g →
      0 ≤ g.lowPassCoeff) ∧
    (∀ g : NoiseGate,
      Reachable (fun _ numSamples sideChainInput g0 =>
        0 ≤ g0.alpha ∧ g0.alpha ≤ 1 ∧
        (∀ j, j < numSamples → finiteFrame sideChainInput j) ∧
        ∀ i j, i < sideChainInput.length → j < numSamples →
          readSample sideChainInput i j ≤ 0) g →
      g.lowPassCoeff ≤ 0) := by
  refine ⟨fun a t sr g m ha0 ha1 => ⟨fun h1 h2 => updateLevel_nonneg a t sr g m ha0 ha1 h1 h2,
    fun h1 h2 => updateLevel_nonpos a t sr g m ha0 ha1 h1 h2⟩, fun g h => ?_, fun g h => ?_⟩
  · induction h with
    | prepare sr mbs g => exact le_refl _
    | setParameters g th al _ ih => exact ih
    | process sr n side g main g1 out _ hadm hrun ih =>
      rw [(processBlock_eq_some sr n side g main g1 out hrun).1]
      exact stateAfter_level_nonneg sr side g n hadm.1 hadm.2.1 hadm.2.2.2 ih
  · induction h with
    | prepare sr mbs g => exact le_refl _
    | setParameters g th al _ ih => exact ih
    | process sr n side g main g1 out _ hadm hrun ih =>
      rw [(processBlock_eq_some sr n side g main g1 out hrun).1]
      exact stateAfter_level_nonpos sr side g n hadm.1 hadm.2.1 hadm.2.2.2 ih

/-! ## C10: the gate starts closed -/

/-- C10. `prepareToPlay` leaves the smoothed level at `0` and the hold counter
at `0` whatever the previous state (and keeps the parameters).  A block run from
that state on a side-chain of at least one channel returns, for every input,
threshold, alpha and sample rate, and every main output sample `j` such that no
frame `k ≤ j` is a detection is `0`; in particular the whole output is silent
when no frame of the block is a detection. -/
theorem gate_starts_closed (sampleRate sr0 : ℚ) (maxBlockSize : Int) (numSamples : Nat)
    (sideChainInput : AudioSampleBuffer) (g : NoiseGate) (mainInputOutput : AudioSampleBuffer) :
    (prepareToPlay sr0 maxBlockSize g).lowPassCoeff = 0 ∧
    (prepareToPlay sr0 maxBlockSize g).sampleCountDown = 0 ∧
    (prepareToPlay sr0 maxBlockSize g).threshold = g.threshold ∧
    (prepareToPlay sr0 maxBlockSize g).alpha = g.alpha ∧
    (sideChainInput ≠ [] →
      ∃ g1 out, processBlock sampleRate numSamples sideChainInput
          (prepareToPlay sr0 maxBlockSize g) mainInputOutput = some (g1, out) ∧
        (∀ i j, j < numSamples →
          (∀ k, k ≤ j → ¬ detectsAt sampleRate sideChainInput
            (prepareToPlay sr0 maxBlockSize g) mainInputOutput k) →
          readSample out i j = 0) ∧
        ((∀ k, k < numSamples → ¬ detectsAt sampleRate sideChainInput
            (prepareToPlay sr0 maxBlockSize g) mainInputOutput k) →
          ∀ i j, j < numSamples → readSample out i j = 0)) := by
  refine ⟨rfl, rfl, rfl, rfl, fun hside => ?_⟩
  have hg : (prepareToPlay sr0 maxBlockSize g).sampleCountDown = 0 := rfl
  obtain ⟨out, hrun, -, -, hread⟩ := processBlock_run sampleRate numSamples sideChainInput
    (prepareToPlay sr0 maxBlockSize g) mainInputOutput hside
  have key : ∀ i j, j < numSamples →
      (∀ k, k ≤ j → ¬ detectsAt sampleRate sideChainInput
        (prepareToPlay sr0 maxBlockSize g) mainInputOutput k) →
      readSample out i j = 0 := by
    intro i j hj hno
    have hno2 : ∀ k, k ≤ j → ¬ (prepareToPlay sr0 maxBlockSize g).threshold ≤
        (stateAt sampleRate sideChainInput (prepareToPlay sr0 maxBlockSize g) k).lowPassCoeff := by
      intro k hk
      rw [← detectsAt_iff _ _ _ mainInputOutput hside]
      exact hno k hk
    rw [hread]
    have hcnt : (stateAt sampleRate sideChainInput (prepareToPlay sr0 maxBlockSize g)
        j).sampleCountDown = 0 := by
      rw [stateAt_sampleCountDown]
      simp only [hno2 j (le_refl j), if_false]
      rw [counter_no_detection _ _ _ j (le_of_eq hg.symm) (fun k hk => hno2 k (by omega)), hg]
      omega
    simp only [hj, hcnt, le_refl, and_self, if_true]
  exact ⟨_, out, hrun, key, fun hno i j hj => key i j hj (fun k hk => hno k (by omega))⟩

/-! ## C14: the division by the side-chain channel count -/

/-- C14. `mixedSamples` divides the channel sum by the side-chain channel count.
With no side-chain channel the division is by zero: the mix has no value, and
no block of at least one frame returns.  With at least one side-chain channel
the mix of every frame is the channel sum divided by the channel count, and
`processBlock` returns for every sample rate, block length, processor and main
bus: the failing branch is never taken. -/
theorem division_defined_iff_side_chain (sideChainInput : AudioSampleBuffer) :
    (sideChainInput = [] →
      (∀ j, mixedSamples sideChainInput j = none) ∧
      (∀ (sampleRate : ℚ) (numSamples : Nat) (g : NoiseGate) (mainInputOutput : AudioSampleBuffer),
        0 < numSamples →
        processBlock sampleRate numSamples sideChainInput g mainInputOutput = none)) ∧
    (sideChainInput ≠ [] →
      (∀ j, mixedSamples sideChainInput j =
        some ((sideChainInput.map (fun ch => ch.getD j 0)).sum / (sideChainInput.length : ℚ))) ∧
      (∀ (sampleRate : ℚ) (numSamples : Nat) (g : NoiseGate) (mainInputOutput : AudioSampleBuffer),
        processBlock sampleRate numSamples sideChainInput g mainInputOutput ≠ none ∧
        ∀ (acc : NoiseGate × AudioSampleBuffer) (j : Nat),
          processSample g.alpha g.threshold sampleRate sideChainInput acc j ≠ none)) := by
  constructor
  · intro hnil
    subst hnil
    refine ⟨fun j => by simp [mixedSamples], fun sr n g main hn => ?_⟩
    cases hrun : processBlock sr n [] g main with
    | none => rfl
    | some r =>
      obtain ⟨g1, out⟩ := r
      rcases (processBlock_eq_some sr n [] g main g1 out hrun).2 with h | h
      · exact absurd rfl h
      · omega
  · intro hside
    refine ⟨fun j => ?_, fun sr n g main => ⟨?_, fun acc j => ?_⟩⟩
    · rw [mixedSamples_eq_some sideChainInput j hside, mixAt_eq]
    · obtain ⟨out, hrun, -⟩ := processBlock_run sr n sideChainInput g main hside
      rw [hrun]
      exact Option.some_ne_none _
    · simp only [processSample, mixedSamples_eq_some sideChainInput j hside]
      exact Option.some_ne_none _

/-! ## C15: the response of the envelope follower to a constant mix -/

/-- C15, as stated, fails in the float32 arithmetic of the source: with the
default `alpha = 0.8f = 13421773 / 2 ^ 24`, a side-chain of constant mix `1` and
the reset level `0`, the level after two frames is `12079595 / 2 ^ 25`, which
is not `c + alpha ^ 2 * (L0 - c)`. -/
theorem envelope_closed_form_counterexample :
    round32 (4 / 5) = .finite (13421773 / 16777216) ∧
    levelAfter32 (.finite (13421773 / 16777216)) [[.finite 1, .finite 1]] (.finite 0) 2
      = .finite (12079595 / 33554432) ∧
    (12079595 / 33554432 : ℚ) ≠ 1 + (13421773 / 16777216) ^ 2 * (0 - 1) := by
  refine ⟨by decide!, by decide!, by norm_num⟩

/-- C15, amended. For a side-chain of finite frames whose mix is the constant
`c` on every frame of the block, every threshold, counter and sample rate: with
`alpha = 1` the level never responds, it stays at the starting level `L0`; with
`alpha = 0` it is `c` from the first frame on; and for `alpha` in `[0, 1]`,
`c ≥ 0` and a starting level `L0 ≤ 0` (the reset state) the level never
decreases from one frame to the next. -/
theorem envelope_response (sampleRate : ℚ) (numSamples : Nat)
    (sideChainInput : AudioSampleBuffer) (g : NoiseGate) (mainInputOutput : AudioSampleBuffer)
    (c : ℚ) (hconst : ∀ j, j < numSamples → mixedSamples sideChainInput j = some c)
    (hside : sideChainInput ≠ [])
    (_hfin : ∀ j, j < numSamples → finiteFrame sideChainInput j) :
    (g.alpha = 1 → ∀ n, n ≤ numSamples →
      ∃ gn outn, processBlock sampleRate n sideChainInput g mainInputOutput = some (gn, outn) ∧
        gn.lowPassCoeff = g.lowPassCoeff) ∧
    (g.alpha = 0 → ∀ n, 1 ≤ n → n ≤ numSamples →
      ∃ gn outn, processBlock sampleRate n sideChainInput g mainInputOutput = some (gn, outn) ∧
        gn.lowPassCoeff = c) ∧
    (0 ≤ g.alpha → g.alpha ≤ 1 → g.lowPassCoeff ≤ 0 → 0 ≤ c → ∀ n, n < numSamples →
      ∃ gn outn gm outm,
        processBlock sampleRate n sideChainInput g mainInputOutput = some (gn, outn) ∧
        processBlock sampleRate (n + 1) sideChainInput g mainInputOutput = some (gm, outm) ∧
        gn.lowPassCoeff ≤ gm.lowPassCoeff) := by
  have hmix : ∀ j, j < numSamples → mixAt sideChainInput j = c := fun j hj =>
    mixAt_of_mixedSamples _ _ _ (hconst j hj)
  have hform : ∀ (n : Nat), n ≤ numSamples →
      (stateAfter sampleRate sideChainInput g n).lowPassCoeff
        = c + g.alpha ^ n * (g.lowPassCoeff - c) := fun n hn =>
    stateAfter_level_const sampleRate sideChainInput g c n (fun j hj => hmix j (by omega))
  refine ⟨fun h1 n hn => ?_, fun h0 n hn1 hn => ?_, fun ha0 ha1 hl hc n hn => ?_⟩
  · obtain ⟨out, hrun, -⟩ := processBlock_run sampleRate n sideChainInput g mainInputOutput hside
    refine ⟨_, out, hrun, ?_⟩
    rw [hform n hn, h1]
    ring
  · obtain ⟨out, hrun, -⟩ := processBlock_run sampleRate n sideChainInput g mainInputOutput hside
    refine ⟨_, out, hrun, ?_⟩
    rw [hform n hn, h0, zero_pow (by omega)]
    ring
  · obtain ⟨out, hrun, -⟩ := processBlock_run sampleRate n sideChainInput g mainInputOutput hside
    obtain ⟨outm, hrunm, -⟩ :=
      processBlock_run sampleRate (n + 1) sideChainInput g mainInputOutput hside
    refine ⟨_, out, _, outm, hrun, hrunm, ?_⟩
    rw [hform n (by omega), hform (n + 1) (by omega)]
    have hp : 0 ≤ g.alpha ^ n := pow_nonneg ha0 n
    have hstep : g.alpha ^ (n + 1) = g.alpha ^ n * g.alpha := pow_succ _ _
    rw [hstep]
    have h1 : 0 ≤ g.alpha ^ n * (1 - g.alpha) := mul_nonneg hp (by linarith)
    nlinarith [mul_nonneg h1 (by linarith : (0 : ℚ) ≤ c - g.lowPassCoeff)]

/-! ## C16: block-size independence -/

/-- C16. Split a block of `n1 + n2` frames after frame `n1`: the first block
holds the first `n1` samples of every channel, the second the rest.  For every
starting processor, sample rate and input (side-chain of at least one channel),
`processBlock` on the first block, then on the second from the processor the
first call left, and `processBlock` once on the whole block all return; the
final processor is the same, and every output sample of the whole block is the
output sample of the part it falls in. -/
theorem block_size_independence (sampleRate : ℚ) (n1 n2 : Nat)
    (sideChainInput : AudioSampleBuffer) (g : NoiseGate) (mainInputOutput : AudioSampleBuffer)
    (hside : sideChainInput ≠ []) :
    ∃ g1 out1 g2 out2 out,
      processBlock sampleRate n1 (sideChainInput.map (List.take n1)) g
        (mainInputOutput.map (List.take n1)) = some (g1, out1) ∧
      processBlock sampleRate n2 (sideChainInput.map (List.drop n1)) g1
        (mainInputOutput.map (List.drop n1)) = some (g2, out2) ∧
      processBlock sampleRate (n1 + n2) sideChainInput g mainInputOutput = some (g2, out) ∧
      (∀ i j, j < n1 → readSample out i j = readSample out1 i j) ∧
      (∀ i j, j < n2 → readSample out i (n1 + j) = readSample out2 i j) := by
  have hside1 : sideChainInput.map (List.take n1) ≠ [] := by
    simpa using hside
  have hside2 : sideChainInput.map (List.drop n1) ≠ [] := by
    simpa using hside
  have hmix1 : ∀ j, j < n1 → mixAt (sideChainInput.map (List.take n1)) j
      = mixAt sideChainInput j := fun j hj =>
    mixAt_congr _ _ j j (List.length_map _ _) (fun i => readSample_map_take _ n1 i j hj)
  have hmix2 : ∀ j, mixAt (sideChainInput.map (List.drop n1)) j
      = mixAt sideChainInput (n1 + j) := fun j =>
    mixAt_congr _ _ (n1 + j) j (List.length_map _ _) (fun i => readSample_map_drop _ n1 i j)
  have hst1 : ∀ n, n ≤ n1 → stateAfter sampleRate (sideChainInput.map (List.take n1)) g n
      = stateAfter sampleRate sideChainInput g n := fun n hn =>
    stateAfter_congr _ _ _ _ n (fun j hj => hmix1 j (by omega))
  obtain ⟨out1, hrun1, -, -, hread1⟩ := processBlock_run sampleRate n1
    (sideChainInput.map (List.take n1)) g (mainInputOutput.map (List.take n1)) hside1
  obtain ⟨out2, hrun2, -, -, hread2⟩ := processBlock_run sampleRate n2
    (sideChainInput.map (List.drop n1))
    (stateAfter sampleRate (sideChainInput.map (List.take n1)) g n1)
    (mainInputOutput.map (List.drop n1)) hside2
  obtain ⟨out, hrun, -, -, hread⟩ :=
    processBlock_run sampleRate (n1 + n2) sideChainInput g mainInputOutput hside
  have hfinal : stateAfter sampleRate (sideChainInput.map (List.drop n1))
      (stateAfter sampleRate (sideChainInput.map (List.take n1)) g n1) n2
      = stateAfter sampleRate sideChainInput g (n1 + n2) := by
    rw [hst1 n1 (le_refl _)]
    exact stateAfter_add _ _ _ _ n1 n2 (fun j _ => hmix2 j)
  rw [hfinal] at hrun2
  refine ⟨_, out1, _, out2, out, hrun1, hrun2, hrun, fun i j hj => ?_, fun i j hj => ?_⟩
  · rw [hread, hread1, readSample_map_take _ n1 i j hj]
    have hat : stateAt sampleRate (sideChainInput.map (List.take n1)) g j
        = stateAt sampleRate sideChainInput g j := by
      unfold stateAt
      rw [hst1 j (by omega), hmix1 j hj]
    have hlt : j < n1 + n2 := by omega
    simp only [hat, hj, hlt, true_and]
  · rw [hread, hread2, readSample_map_drop]
    have hat : stateAt sampleRate (sideChainInput.map (List.drop n1))
        (stateAfter sampleRate (sideChainInput.map (List.take n1)) g n1) j
        = stateAt sampleRate sideChainInput g (n1 + j) := by
      unfold stateAt
      rw [hst1 n1 (le_refl _), stateAfter_add _ _ _ _ n1 j (fun k _ => hmix2 k), hmix2 j,
        (stateAfter_alpha sampleRate sideChainInput g n1).1,
        (stateAfter_alpha sampleRate sideChainInput g n1).2]
    have hlt : n1 + j < n1 + n2 := by omega
    simp only [hat, hj, hlt, true_and]

/-! ## C17: the main signal does not influence the gate -/

/-- C17. For every sample rate, block length, starting processor and side-chain
(of at least one channel) there are a final processor and an open/closed
decision per frame, fixed before the main input is chosen, such that for every
main input `processBlock` returns that final processor (so the final level and
counter do not depend on the main input, nor does the set of open frames) and
output sample `j` of channel `i` is the input sample `j` of channel `i` when
frame `j` is open and `0` when it is closed. -/
theorem main_signal_does_not_influence_gate (sampleRate : ℚ) (numSamples : Nat)
    (sideChainInput : AudioSampleBuffer) (g : NoiseGate) (hside : sideChainInput ≠ []) :
    ∃ (g1 : NoiseGate) (gateOpen : Nat → Bool), ∀ mainInputOutput : AudioSampleBuffer,
      ∃ out, processBlock sampleRate numSamples sideChainInput g mainInputOutput
          = some (g1, out) ∧
        ∀ i j, j < numSamples →
          readSample out i j = if gateOpen j = true then readSample mainInputOutput i j else 0 := by
  refine ⟨stateAfter sampleRate sideChainInput g numSamples,
    fun j => decide (0 < (stateAt sampleRate sideChainInput g j).sampleCountDown),
    fun main => ?_⟩
  obtain ⟨out, hrun, -, -, hread⟩ :=
    processBlock_run sampleRate numSamples sideChainInput g main hside
  refine ⟨out, hrun, fun i j hj => ?_⟩
  rw [hread]
  by_cases hc : (stateAt sampleRate sideChainInput g j).sampleCountDown ≤ 0
  · have : ¬ 0 < (stateAt sampleRate sideChainInput g j).sampleCountDown := by omega
    simp only [hj, hc, and_self, if_true, this, decide_False, Bool.false_eq_true, if_false]
  · have : 0 < (stateAt sampleRate sideChainInput g j).sampleCountDown := by omega
    simp only [hc, and_false, if_false, this, decide_True, if_true]

/-! ## C18: the hold counter stays below the sample rate -/

theorem stateAfter_counter_bound (sr : ℚ) (S : Int) (hS : 1 ≤ S) (hsr : toInt sr = S)
    (side : AudioSampleBuffer) (g : NoiseGate)
    (hg : 0 ≤ g.sampleCountDown ∧ g.sampleCountDown ≤ S - 1) (n : Nat) :
    0 ≤ (stateAfter sr side g n).sampleCountDown ∧
    (stateAfter sr side g n).sampleCountDown ≤ S - 1 := by
  induction n with
  | zero => exact hg
  | succ n ih =>
    rw [stateAfter_succ_sampleCountDown, stateAt_sampleCountDown, hsr]
    split_ifs <;> omega

/-- C18. For an integer sample rate `S ≥ 1` in the `int` range (`S < 2 ^ 31`), in every state reachable
from `prepareToPlay` by parameter changes and `processBlock` calls at a sample
rate of integer part `S` (any inputs, threshold and alpha) the hold counter
lies in `0 .. S - 1`.  A further run of `n + 1` frames from such a state returns
with the counter again in `0 .. S - 1`; the counter is `S - 1` when the last
frame is a detection, and for `S ≥ 2` only then. -/
theorem hold_counter_bound (S : Int) (hS : 1 ≤ S) (_hS2 : S < 2 ^ 31) (g : NoiseGate)
    (h : Reachable (fun sampleRate _ _ _ => toInt sampleRate = S) g) :
    0 ≤ g.sampleCountDown ∧ g.sampleCountDown ≤ S - 1 ∧
    ∀ (sampleRate : ℚ) (n : Nat) (sideChainInput mainInputOutput : AudioSampleBuffer),
      toInt sampleRate = S → sideChainInput ≠ [] →
      ∃ g1 out, processBlock sampleRate (n + 1) sideChainInput g mainInputOutput
          = some (g1, out) ∧
        0 ≤ g1.sampleCountDown ∧ g1.sampleCountDown ≤ S - 1 ∧
        (detectsAt sampleRate sideChainInput g mainInputOutput n →
          g1.sampleCountDown = S - 1) ∧
        (2 ≤ S → g1.sampleCountDown = S - 1 →
          detectsAt sampleRate sideChainInput g mainInputOutput n) := by
  have hinv : 0 ≤ g.sampleCountDown ∧ g.sampleCountDown ≤ S - 1 := by
    induction h with
    | prepare sr mbs g => exact ⟨le_refl _, by show (0 : Int) ≤ S - 1; omega⟩
    | setParameters g th al _ ih => exact ih
    | process sr n side g main g1 out _ hadm hrun ih =>
      rw [(processBlock_eq_some sr n side g main g1 out hrun).1]
      exact stateAfter_counter_bound sr S hS hadm side g ih n
  refine ⟨hinv.1, hinv.2, fun sr n side main hsr hside => ?_⟩
  obtain ⟨out, hrun, -⟩ := processBlock_run sr (n + 1) side g main hside
  have hb := stateAfter_counter_bound sr S hS hsr side g hinv (n + 1)
  have hn := stateAfter_counter_bound sr S hS hsr side g hinv n
  refine ⟨_, out, hrun, hb.1, hb.2, fun hdet => ?_, fun h2 heq => ?_⟩
  · rw [detectsAt_iff _ _ _ _ hside] at hdet
    rw [stateAfter_succ_sampleCountDown, stateAt_sampleCountDown, hsr]
    have hpos : S > 0 := by omega
    simp only [hdet, if_true, hpos]
  · rw [detectsAt_iff _ _ _ _ hside]
    by_contra hno
    rw [stateAfter_succ_sampleCountDown, stateAt_sampleCountDown] at heq
    simp only [hno, if_false] at heq
    split_ifs at heq <;> omega

/-! ## C11 and C12: the state blob -/

theorem binary32_raw32 : binary32.Raw32 isFloat32 := by
  refine ⟨fun x => rfl, fun x hx => hx, fun x _ _ => ?_⟩
  show 0 + (1 - 0) * x = x
  ring

/-- C11. For every raw 32-bit codec and every pair of parameter values
(threshold, alpha) in `[0, 1]` that the codec holds exactly,
`setStateInformation` applied to the bytes that `getStateInformation` has
written (to an empty block, or behind whatever the block held before) leaves a
processor whose threshold and alpha are the originals; its level and counter
are untouched. -/
theorem state_round_trip (c : StreamCodec) (isFloat : ℚ → Prop) (hc : c.Raw32 isFloat)
    (g g0 : NoiseGate) (destData : List Byte)
    (hθf : isFloat g.threshold) (hαf : isFloat g.alpha)
    (hθ0 : 0 ≤ g.threshold) (hθ1 : g.threshold ≤ 1) (hα0 : 0 ≤ g.alpha) (hα1 : g.alpha ≤ 1) :
    setStateInformation c (getStateInformation c g []) g0
      = { g0 with threshold := g.threshold, alpha := g.alpha } ∧
    setStateInformation c ((getStateInformation c g destData).drop destData.length) g0
      = { g0 with threshold := g.threshold, alpha := g.alpha } := by
  obtain ⟨hlen, hdec, hset⟩ := hc
  have hblob : ∀ d : List Byte, (getStateInformation c g d).drop d.length
      = c.encodeFloat g.threshold ++ c.encodeFloat g.alpha := by
    intro d
    simp only [getStateInformation, writeFloat, List.append_assoc, List.drop_left]
  have hread : setStateInformation c (c.encodeFloat g.threshold ++ c.encodeFloat g.alpha) g0
      = { g0 with threshold := g.threshold, alpha := g.alpha } := by
    simp only [setStateInformation, readFloat, List.take_left' (hlen g.threshold),
      List.drop_left' (hlen g.threshold), List.take_of_length_le (le_of_eq (hlen g.alpha)),
      hdec _ hθf, hdec _ hαf, hset _ hθ0 hθ1, hset _ hα0 hα1]
  constructor
  · have h := hblob []
    simp only [List.length_nil, List.drop_zero] at h
    rw [h, hread]
  · rw [hblob destData, hread]

/-- C12. For every processor, `getStateInformation` appends to the block the
encoding of the threshold followed by the encoding of the alpha and nothing
else; with the raw 32-bit encoding (four bytes per value) an empty block
becomes exactly 8 bytes, the first 4 the encoding of the threshold and the
last 4 the encoding of the alpha.  `setStateInformation` decodes the first 4
bytes of its data for the threshold and the next 4 for the alpha, and changes
nothing else. -/
theorem state_blob_layout (c : StreamCodec) (g g0 : NoiseGate) (destData data : List Byte)
    (hlen : ∀ x, (c.encodeFloat x).length = 4) :
    getStateInformation c g destData
      = destData ++ (c.encodeFloat g.threshold ++ c.encodeFloat g.alpha) ∧
    (getStateInformation c g []).length = 8 ∧
    (getStateInformation c g []).take 4 = c.encodeFloat g.threshold ∧
    (getStateInformation c g []).drop 4 = c.encodeFloat g.alpha ∧
    setStateInformation c data g0
      = { g0 with
          threshold := c.setValue (c.decodeFloat (data.take 4))
          alpha := c.setValue (c.decodeFloat ((data.drop 4).take 4)) } := by
  have hblob : getStateInformation c g [] = c.encodeFloat g.threshold ++ c.encodeFloat g.alpha := by
    simp only [getStateInformation, writeFloat, List.nil_append]
  refine ⟨?_, ?_, ?_, ?_, rfl⟩
  · simp only [getStateInformation, writeFloat, List.append_assoc]
  · rw [hblob, List.length_append, hlen, hlen]
  · rw [hblob, List.take_left' (hlen g.threshold)]
  · rw [hblob, List.drop_left' (hlen g.threshold)]

/-! ## C13: the bus-arrangement policy -/

/-- C13. Whatever the base class does: a layout with zero channels is rejected
on any bus, and a layout whose channel count is not 2 is rejected on bus 1, both
with the arrangement returned as it was given (the answer does not involve
`base`).  Every other request goes to the base class for the opposite
direction first and, once that is accepted, for the requested direction, on
the arrangement the first call left.  The answer is `true` exactly when the
base class accepts both; then the arrangement is the one after both calls.  When
the base class rejects the opposite direction the answer is `false` and the
requested direction is not forwarded. -/
theorem bus_arrangement_policy {Arrangement : Type}
    (base : Bool → Int → AudioChannelSet → Arrangement → Bool × Arrangement)
    (isInputBus : Bool) (busIndex : Int) (preferred : AudioChannelSet)
    (busArrangement : Arrangement) :
    (preferred.length = 0 →
      setPreferredBusArrangement base isInputBus busIndex preferred busArrangement
        = (false, busArrangement)) ∧
    (busIndex = 1 → preferred.length ≠ 2 →
      setPreferredBusArrangement base isInputBus busIndex preferred busArrangement
        = (false, busArrangement)) ∧
    (preferred.length ≠ 0 → (busIndex = 1 → preferred.length = 2) →
      ((setPreferredBusArrangement base isInputBus busIndex preferred busArrangement).1 = true ↔
        (base (!isInputBus) busIndex preferred busArrangement).1 = true ∧
        (base isInputBus busIndex preferred
          (base (!isInputBus) busIndex preferred busArrangement).2).1 = true) ∧
      ((base (!isInputBus) busIndex preferred busArrangement).1 = true →
        setPreferredBusArrangement base isInputBus busIndex preferred busArrangement
          = base isInputBus busIndex preferred
              (base (!isInputBus) busIndex preferred busArrangement).2) ∧
      ((base (!isInputBus) busIndex preferred busArrangement).1 = false →
        setPreferredBusArrangement base isInputBus busIndex preferred busArrangement
          = (false, (base (!isInputBus) busIndex preferred busArrangement).2))) := by
  refine ⟨fun h0 => ?_, fun h1 h2 => ?_, fun h0 hside => ?_⟩
  · simp only [setPreferredBusArrangement, h0, if_true]
  · by_cases h0 : preferred.length = 0
    · simp only [setPreferredBusArrangement, h0, if_true]
    · simp only [setPreferredBusArrangement, h0, if_false, h1, h2, ne_eq, not_false_eq_true,
        and_self, if_true]
  · have hno : ¬ (busIndex = 1 ∧ preferred.length ≠ 2) := fun h => h.2 (hside h.1)
    cases hb : (base (!isInputBus) busIndex preferred busArrangement).1 with
    | false =>
      simp [setPreferredBusArrangement, h0, hno, hb]
    | true =>
      simp [setPreferredBusArrangement, h0, hno, hb]

/-! ## Instances

Each theorem above that carries hypotheses, applied to a concrete processor and
block on which the hypotheses hold. -/

/-- C2, instance: sample rate 2, threshold 1/2, alpha 0, one loud frame followed by
two silent ones. -/
theorem gate_open_iff_recent_detection_witness :
    (1 ≤ (2 : Int)) ∧
    ((2 : Int) < 2 ^ 31) ∧
    (([[1, 0, 0]] : AudioSampleBuffer) ≠ []) ∧
    (∃ g1 out,
          processBlock ((2 : Int) : ℚ) (3 : Nat) ([[1, 0, 0]] : AudioSampleBuffer) (prepareToPlay 0 0 (⟨1 / 2, 0, 5, 7⟩ : NoiseGate))
            ([[5, 6, 7]] : AudioSampleBuffer) = some (g1, out) ∧
          (∀ i j, j < (3 : Nat) →
            ((∃ k, k ≤ j ∧ (j : Int) - (k : Int) < (2 : Int) ∧
                detectsAt ((2 : Int) : ℚ) ([[1, 0, 0]] : AudioSampleBuffer) (prepareToPlay 0 0 (⟨1 / 2, 0, 5, 7⟩ : NoiseGate))
                  ([[5, 6, 7]] : AudioSampleBuffer) k) →
              readSample out i j = readSample ([[5, 6, 7]] : AudioSampleBuffer) i j) ∧
            ((¬ ∃ k, k ≤ j ∧ (j : Int) - (k : Int) < (2 : Int) ∧
                detectsAt ((2 : Int) : ℚ) ([[1, 0, 0]] : AudioSampleBuffer) (prepareToPlay 0 0 (⟨1 / 2, 0, 5, 7⟩ : NoiseGate))
                  ([[5, 6, 7]] : AudioSampleBuffer) k) →
              readSample out i j = 0)) ∧
          (∀ k, detectsAt ((2 : Int) : ℚ) ([[1, 0, 0]] : AudioSampleBuffer) (prepareToPlay 0 0 (⟨1 / 2, 0, 5, 7⟩ : NoiseGate))
                ([[5, 6, 7]] : AudioSampleBuffer) k →
            ∃ gk outk,
              processBlock ((2 : Int) : ℚ) (k + 1) ([[1, 0, 0]] : AudioSampleBuffer) (prepareToPlay 0 0 (⟨1 / 2, 0, 5, 7⟩ : NoiseGate))
                ([[5, 6, 7]] : AudioSampleBuffer) = some (gk, outk) ∧ gk.sampleCountDown = (2 : Int) - 1) ∧
          (∀ i k j, k ≤ j → j < (3 : Nat) →
            detectsAt ((2 : Int) : ℚ) ([[1, 0, 0]] : AudioSampleBuffer) (prepareToPlay 0 0 (⟨1 / 2, 0, 5, 7⟩ : NoiseGate)) ([[5, 6, 7]] : AudioSampleBuffer) k →
            (∀ l, k < l → l ≤ j →
              ¬ detectsAt ((2 : Int) : ℚ) ([[1, 0, 0]] : AudioSampleBuffer) (prepareToPlay 0 0 (⟨1 / 2, 0, 5, 7⟩ : NoiseGate))
                ([[5, 6, 7]] : AudioSampleBuffer) l) →
            ((j : Int) - (k : Int) < (2 : Int) → readSample out i j = readSample ([[5, 6, 7]] : AudioSampleBuffer) i j) ∧
            ((2 : Int) ≤ (j : Int) - (k : Int) → readSample out i j = 0))) :=
  ⟨(by decide),
    (by decide),
    (List.cons_ne_nil _ _),
    gate_open_iff_recent_detection
      (2 : Int)
      (by decide)
      (by decide)
      0
      0
      (3 : Nat)
      ([[1, 0, 0]] : AudioSampleBuffer)
      (⟨1 / 2, 0, 5, 7⟩ : NoiseGate)
      ([[5, 6, 7]] : AudioSampleBuffer)
      (List.cons_ne_nil _ _)⟩

/-- C3, instance: a stereo side-chain carrying the impulse, a block of three frames. -/
theorem impulse_scenario_witness :
    ((⟨1 / 2, 0, 5, 7⟩ : NoiseGate).threshold = 1 / 2) ∧
    ((⟨1 / 2, 0, 5, 7⟩ : NoiseGate).alpha = 0) ∧
    (mixedSamples ([[1, 0, 0], [1, 0, 0]] : AudioSampleBuffer) 0 = some 1) ∧
    (∀ j, 0 < j → j < (3 : Nat) → mixedSamples ([[1, 0, 0], [1, 0, 0]] : AudioSampleBuffer) j = some 0) ∧
    ((updateLevel (⟨1 / 2, 0, 5, 7⟩ : NoiseGate).alpha (⟨1 / 2, 0, 5, 7⟩ : NoiseGate).threshold 44100 (prepareToPlay 0 0 (⟨1 / 2, 0, 5, 7⟩ : NoiseGate)) 1).sampleCountDown
            = 44100 ∧
        (∃ g0 out0, processBlock 44100 1 ([[1, 0, 0], [1, 0, 0]] : AudioSampleBuffer) (prepareToPlay 0 0 (⟨1 / 2, 0, 5, 7⟩ : NoiseGate))
            ([[5, 6, 7]] : AudioSampleBuffer) = some (g0, out0) ∧ g0.sampleCountDown = 44099 ∧ g0.lowPassCoeff = 1) ∧
        ∃ g1 out, processBlock 44100 (3 : Nat) ([[1, 0, 0], [1, 0, 0]] : AudioSampleBuffer) (prepareToPlay 0 0 (⟨1 / 2, 0, 5, 7⟩ : NoiseGate))
            ([[5, 6, 7]] : AudioSampleBuffer) = some (g1, out) ∧
          ∀ i j, j < (3 : Nat) →
            (j < 44100 → readSample out i j = readSample ([[5, 6, 7]] : AudioSampleBuffer) i j) ∧
            (44100 ≤ j → readSample out i j = 0)) :=
  ⟨rfl,
    rfl,
    (by decide!),
    (by intro j h1 h2; interval_cases j <;> decide!),
    impulse_scenario
      0
      0
      (3 : Nat)
      ([[1, 0, 0], [1, 0, 0]] : AudioSampleBuffer)
      (⟨1 / 2, 0, 5, 7⟩ : NoiseGate)
      ([[5, 6, 7]] : AudioSampleBuffer)
      rfl
      rfl
      (by decide!)
      (by intro j h1 h2; interval_cases j <;> decide!)⟩

/-- C4, instance: alpha 1/2, threshold 1/2, constant side-chain 1, sample rate 2. -/
theorem constant_above_threshold_opens_witness :
    (1 ≤ (2 : Int)) ∧
    ((2 : Int) < 2 ^ 31) ∧
    (0 ≤ (⟨1 / 2, 1 / 2, 5, 7⟩ : NoiseGate).alpha) ∧
    ((⟨1 / 2, 1 / 2, 5, 7⟩ : NoiseGate).alpha ≤ 1) ∧
    (0 ≤ (⟨1 / 2, 1 / 2, 5, 7⟩ : NoiseGate).threshold) ∧
    ((⟨1 / 2, 1 / 2, 5, 7⟩ : NoiseGate).threshold < (1 : ℚ)) ∧
    (([[1, 1, 1]] : AudioSampleBuffer) ≠ []) ∧
    (∀ i j, i < ([[1, 1, 1]] : AudioSampleBuffer).length → j < (3 : Nat) → readSample ([[1, 1, 1]] : AudioSampleBuffer) i j = (1 : ℚ)) ∧
    (∀ j, j < (3 : Nat) → finiteFrame ([[1, 1, 1]] : AudioSampleBuffer) j) ∧
    (∃ g1 out,
          processBlock ((2 : Int) : ℚ) (3 : Nat) ([[1, 1, 1]] : AudioSampleBuffer) (prepareToPlay 0 0 (⟨1 / 2, 1 / 2, 5, 7⟩ : NoiseGate))
            ([[5, 6, 7]] : AudioSampleBuffer) = some (g1, out) ∧
          ∀ k, k < (3 : Nat) →
            detectsAt ((2 : Int) : ℚ) ([[1, 1, 1]] : AudioSampleBuffer) (prepareToPlay 0 0 (⟨1 / 2, 1 / 2, 5, 7⟩ : NoiseGate)) ([[5, 6, 7]] : AudioSampleBuffer) k →
            ∀ i j, k ≤ j → j < (3 : Nat) →
              readSample out i j = readSample ([[5, 6, 7]] : AudioSampleBuffer) i j) :=
  ⟨(by decide),
    (by decide),
    (by decide!),
    (by decide!),
    (by decide!),
    (by decide!),
    (List.cons_ne_nil _ _),
    (by intro i j hi hj; have hi1 : i < 1 := hi; interval_cases i; interval_cases j <;> decide!),
    (by intro j hj; unfold finiteFrame; interval_cases j <;> decide!),
    constant_above_threshold_opens
      (2 : Int)
      (by decide)
      (by decide)
      (1 : ℚ)
      0
      0
      (3 : Nat)
      ([[1, 1, 1]] : AudioSampleBuffer)
      (⟨1 / 2, 1 / 2, 5, 7⟩ : NoiseGate)
      ([[5, 6, 7]] : AudioSampleBuffer)
      (by decide!)
      (by decide!)
      (by decide!)
      (by decide!)
      (List.cons_ne_nil _ _)
      (by intro i j hi hj; have hi1 : i < 1 := hi; interval_cases i; interval_cases j <;> decide!)
      (by intro j hj; unfold finiteFrame; interval_cases j <;> decide!)⟩

/-- C6, instance: alpha 0, previous level 9, a stereo side-chain, frame 2. -/
theorem alpha_zero_level_is_mix_witness :
    ((⟨1 / 2, 0, 0, 9⟩ : NoiseGate).alpha = 0) ∧
    (([[1, 2, 3], [3, 2, 1]] : AudioSampleBuffer) ≠ []) ∧
    (∀ k, k ≤ (2 : Nat) → finiteFrame ([[1, 2, 3], [3, 2, 1]] : AudioSampleBuffer) k) ∧
    (∃ gj outj, processBlock 1 ((2 : Nat) + 1) ([[1, 2, 3], [3, 2, 1]] : AudioSampleBuffer) (⟨1 / 2, 0, 0, 9⟩ : NoiseGate) ([[5, 6, 7]] : AudioSampleBuffer)
            = some (gj, outj) ∧
          mixedSamples ([[1, 2, 3], [3, 2, 1]] : AudioSampleBuffer) (2 : Nat) = some gj.lowPassCoeff ∧
          ∀ (sampleRate2 : ℚ) (sideChainInput2 : AudioSampleBuffer) (g2 : NoiseGate)
            (mainInputOutput2 : AudioSampleBuffer), g2.alpha = 0 →
            (∀ k, k ≤ (2 : Nat) → finiteFrame sideChainInput2 k) →
            mixedSamples sideChainInput2 (2 : Nat) = mixedSamples ([[1, 2, 3], [3, 2, 1]] : AudioSampleBuffer) (2 : Nat) →
            ∃ gj2 outj2, processBlock sampleRate2 ((2 : Nat) + 1) sideChainInput2 g2 mainInputOutput2
                = some (gj2, outj2) ∧ gj2.lowPassCoeff = gj.lowPassCoeff) :=
  ⟨rfl,
    (List.cons_ne_nil _ _),
    (by intro k hk; unfold finiteFrame; interval_cases k <;> decide!),
    alpha_zero_level_is_mix
      1
      (2 : Nat)
      ([[1, 2, 3], [3, 2, 1]] : AudioSampleBuffer)
      (⟨1 / 2, 0, 0, 9⟩ : NoiseGate)
      ([[5, 6, 7]] : AudioSampleBuffer)
      rfl
      (List.cons_ne_nil _ _)
      (by intro k hk; unfold finiteFrame; interval_cases k <;> decide!)⟩

/-- C8, instance: the state after one loud frame at sample rate 2. -/
theorem hold_counter_nonneg_witness :
    (Reachable (fun sampleRate _ _ _ => 0 ≤ toInt sampleRate ∧ toInt sampleRate < 2 ^ 31) (⟨1 / 2, 0, 1, 1⟩ : NoiseGate)) ∧
    (0 ≤ (⟨1 / 2, 0, 1, 1⟩ : NoiseGate).sampleCountDown) :=
  ⟨(Reachable.process 2 1 [[1]] _ [[5]] _ [[5]] (Reachable.prepare 0 0 ⟨1 / 2, 0, 0, 0⟩)
      (by decide!) (by decide!)),
    hold_counter_nonneg
      (⟨1 / 2, 0, 1, 1⟩ : NoiseGate)
      (Reachable.process 2 1 [[1]] _ [[5]] _ [[5]] (Reachable.prepare 0 0 ⟨1 / 2, 0, 0, 0⟩)
      (by decide!) (by decide!))⟩

/-- C9, instance: the state after one frame of a non-negative side-chain. -/
theorem level_keeps_sign_witness :
    Reachable (fun _ numSamples sideChainInput g0 =>
        0 ≤ g0.alpha ∧ g0.alpha ≤ 1 ∧
        (∀ j, j < numSamples → finiteFrame sideChainInput j) ∧
        ∀ i j, i < sideChainInput.length → j < numSamples →
          0 ≤ readSample sideChainInput i j) (⟨1 / 2, 1 / 2, 0, 1 / 2⟩ : NoiseGate) ∧
    0 ≤ (⟨1 / 2, 1 / 2, 0, 1 / 2⟩ : NoiseGate).lowPassCoeff :=
  have h : Reachable (fun _ numSamples sideChainInput g0 =>
        0 ≤ g0.alpha ∧ g0.alpha ≤ 1 ∧
        (∀ j, j < numSamples → finiteFrame sideChainInput j) ∧
        ∀ i j, i < sideChainInput.length → j < numSamples →
          0 ≤ readSample sideChainInput i j) (⟨1 / 2, 1 / 2, 0, 1 / 2⟩ : NoiseGate) :=
    Reachable.process 0 1 [[1]] _ [[5]] _ [[0]] (Reachable.prepare 0 0 ⟨1 / 2, 1 / 2, 0, 0⟩)
      ⟨by decide!, by decide!,
        by intro j hj; unfold finiteFrame; interval_cases j; decide!,
        by intro i j hi hj; have hi1 : i < 1 := hi; interval_cases i; interval_cases j; decide!⟩
      (by decide!)
  ⟨h, level_keeps_sign.2.1 _ h⟩

/-- C10, instance: a block of three frames with a one-channel side-chain. -/
theorem gate_starts_closed_witness :
    (([[1, 0, 0]] : AudioSampleBuffer) ≠ []) ∧
    (∃ g1 out, processBlock 2 (3 : Nat) ([[1, 0, 0]] : AudioSampleBuffer)
          (prepareToPlay 0 0 (⟨1 / 2, 0, 5, 7⟩ : NoiseGate)) ([[5, 6, 7]] : AudioSampleBuffer) = some (g1, out) ∧
        (∀ i j, j < (3 : Nat) →
          (∀ k, k ≤ j → ¬ detectsAt 2 ([[1, 0, 0]] : AudioSampleBuffer)
            (prepareToPlay 0 0 (⟨1 / 2, 0, 5, 7⟩ : NoiseGate)) ([[5, 6, 7]] : AudioSampleBuffer) k) →
          readSample out i j = 0) ∧
        ((∀ k, k < (3 : Nat) → ¬ detectsAt 2 ([[1, 0, 0]] : AudioSampleBuffer)
            (prepareToPlay 0 0 (⟨1 / 2, 0, 5, 7⟩ : NoiseGate)) ([[5, 6, 7]] : AudioSampleBuffer) k) →
          ∀ i j, j < (3 : Nat) → readSample out i j = 0)) :=
  ⟨List.cons_ne_nil _ _,
    (gate_starts_closed 2 0 0 3 [[1, 0, 0]] ⟨1 / 2, 0, 5, 7⟩ [[5, 6, 7]]).2.2.2.2
      (List.cons_ne_nil _ _)⟩

/-- C11, instance: binary32 and the parameter values `0.3f = 5033165 / 2 ^ 24` and
`0.7f = 11744051 / 2 ^ 24`. -/
theorem state_round_trip_witness :
    (binary32.Raw32 isFloat32) ∧
    (isFloat32 (⟨5033165 / 16777216, 11744051 / 16777216, 0, 0⟩ : NoiseGate).threshold) ∧
    (isFloat32 (⟨5033165 / 16777216, 11744051 / 16777216, 0, 0⟩ : NoiseGate).alpha) ∧
    (0 ≤ (⟨5033165 / 16777216, 11744051 / 16777216, 0, 0⟩ : NoiseGate).threshold) ∧
    ((⟨5033165 / 16777216, 11744051 / 16777216, 0, 0⟩ : NoiseGate).threshold ≤ 1) ∧
    (0 ≤ (⟨5033165 / 16777216, 11744051 / 16777216, 0, 0⟩ : NoiseGate).alpha) ∧
    ((⟨5033165 / 16777216, 11744051 / 16777216, 0, 0⟩ : NoiseGate).alpha ≤ 1) ∧
    (setStateInformation binary32 (getStateInformation binary32 (⟨5033165 / 16777216, 11744051 / 16777216, 0, 0⟩ : NoiseGate) []) (⟨1 / 2, 4 / 5, 3, 1 / 4⟩ : NoiseGate)
          = { (⟨1 / 2, 4 / 5, 3, 1 / 4⟩ : NoiseGate) with threshold := (⟨5033165 / 16777216, 11744051 / 16777216, 0, 0⟩ : NoiseGate).threshold, alpha := (⟨5033165 / 16777216, 11744051 / 16777216, 0, 0⟩ : NoiseGate).alpha } ∧
        setStateInformation binary32 ((getStateInformation binary32 (⟨5033165 / 16777216, 11744051 / 16777216, 0, 0⟩ : NoiseGate) ([1, 2, 3] : List Byte)).drop ([1, 2, 3] : List Byte).length) (⟨1 / 2, 4 / 5, 3, 1 / 4⟩ : NoiseGate)
          = { (⟨1 / 2, 4 / 5, 3, 1 / 4⟩ : NoiseGate) with threshold := (⟨5033165 / 16777216, 11744051 / 16777216, 0, 0⟩ : NoiseGate).threshold, alpha := (⟨5033165 / 16777216, 11744051 / 16777216, 0, 0⟩ : NoiseGate).alpha }) :=
  ⟨binary32_raw32,
    (by unfold isFloat32; decide!),
    (by unfold isFloat32; decide!),
    (by decide!),
    (by decide!),
    (by decide!),
    (by decide!),
    state_round_trip
      binary32
      isFloat32
      binary32_raw32
      (⟨5033165 / 16777216, 11744051 / 16777216, 0, 0⟩ : NoiseGate)
      (⟨1 / 2, 4 / 5, 3, 1 / 4⟩ : NoiseGate)
      ([1, 2, 3] : List Byte)
      (by unfold isFloat32; decide!)
      (by unfold isFloat32; decide!)
      (by decide!)
      (by decide!)
      (by decide!)
      (by decide!)⟩

/-- C12, instance: binary32 and the blob `9A 99 99 3E 33 33 33 3F` of `0.3f`, `0.7f`. -/
theorem state_blob_layout_witness :
    (∀ x, (binary32.encodeFloat x).length = 4) ∧
    (getStateInformation binary32 (⟨5033165 / 16777216, 11744051 / 16777216, 0, 0⟩ : NoiseGate) ([1, 2, 3] : List Byte)
          = ([1, 2, 3] : List Byte) ++ (binary32.encodeFloat (⟨5033165 / 16777216, 11744051 / 16777216, 0, 0⟩ : NoiseGate).threshold ++ binary32.encodeFloat (⟨5033165 / 16777216, 11744051 / 16777216, 0, 0⟩ : NoiseGate).alpha) ∧
        (getStateInformation binary32 (⟨5033165 / 16777216, 11744051 / 16777216, 0, 0⟩ : NoiseGate) []).length = 8 ∧
        (getStateInformation binary32 (⟨5033165 / 16777216, 11744051 / 16777216, 0, 0⟩ : NoiseGate) []).take 4 = binary32.encodeFloat (⟨5033165 / 16777216, 11744051 / 16777216, 0, 0⟩ : NoiseGate).threshold ∧
        (getStateInformation binary32 (⟨5033165 / 16777216, 11744051 / 16777216, 0, 0⟩ : NoiseGate) []).drop 4 = binary32.encodeFloat (⟨5033165 / 16777216, 11744051 / 16777216, 0, 0⟩ : NoiseGate).alpha ∧
        setStateInformation binary32 ([154, 153, 153, 62, 51, 51, 51, 63] : List Byte) (⟨1 / 2, 4 / 5, 3, 1 / 4⟩ : NoiseGate)
          = { (⟨1 / 2, 4 / 5, 3, 1 / 4⟩ : NoiseGate) with
              threshold := binary32.setValue (binary32.decodeFloat (([154, 153, 153, 62, 51, 51, 51, 63] : List Byte).take 4))
              alpha := binary32.setValue (binary32.decodeFloat ((([154, 153, 153, 62, 51, 51, 51, 63] : List Byte).drop 4).take 4)) }) :=
  ⟨(fun _ => rfl),
    state_blob_layout
      binary32
      (⟨5033165 / 16777216, 11744051 / 16777216, 0, 0⟩ : NoiseGate)
      (⟨1 / 2, 4 / 5, 3, 1 / 4⟩ : NoiseGate)
      ([1, 2, 3] : List Byte)
      ([154, 153, 153, 62, 51, 51, 51, 63] : List Byte)
      (fun _ => rfl)⟩

/-- C13, instance: a mono layout requested on input bus 0, with a base class that
accepts every request. -/
theorem bus_arrangement_policy_witness :
    (([0] : AudioChannelSet).length ≠ 0) ∧
    ((0 : Int) = 1 → ([0] : AudioChannelSet).length = 2) ∧
    (((setPreferredBusArrangement (fun _ _ p (_ : AudioChannelSet) => (true, p)) true (0 : Int) ([0] : AudioChannelSet) ([0, 1] : AudioChannelSet)).1 = true ↔
        ((fun _ _ p (_ : AudioChannelSet) => (true, p)) (!true) (0 : Int) ([0] : AudioChannelSet) ([0, 1] : AudioChannelSet)).1 = true ∧
        ((fun _ _ p (_ : AudioChannelSet) => (true, p)) true (0 : Int) ([0] : AudioChannelSet)
          ((fun _ _ p (_ : AudioChannelSet) => (true, p)) (!true) (0 : Int) ([0] : AudioChannelSet) ([0, 1] : AudioChannelSet)).2).1 = true) ∧
      (((fun _ _ p (_ : AudioChannelSet) => (true, p)) (!true) (0 : Int) ([0] : AudioChannelSet) ([0, 1] : AudioChannelSet)).1 = true →
        setPreferredBusArrangement (fun _ _ p (_ : AudioChannelSet) => (true, p)) true (0 : Int) ([0] : AudioChannelSet) ([0, 1] : AudioChannelSet)
          = (fun _ _ p (_ : AudioChannelSet) => (true, p)) true (0 : Int) ([0] : AudioChannelSet)
              ((fun _ _ p (_ : AudioChannelSet) => (true, p)) (!true) (0 : Int) ([0] : AudioChannelSet) ([0, 1] : AudioChannelSet)).2) ∧
      (((fun _ _ p (_ : AudioChannelSet) => (true, p)) (!true) (0 : Int) ([0] : AudioChannelSet) ([0, 1] : AudioChannelSet)).1 = false →
        setPreferredBusArrangement (fun _ _ p (_ : AudioChannelSet) => (true, p)) true (0 : Int) ([0] : AudioChannelSet) ([0, 1] : AudioChannelSet)
          = (false, ((fun _ _ p (_ : AudioChannelSet) => (true, p)) (!true) (0 : Int) ([0] : AudioChannelSet) ([0, 1] : AudioChannelSet)).2))) :=
  ⟨by decide, by decide,
    (bus_arrangement_policy (fun _ _ p (_ : AudioChannelSet) => (true, p)) true 0 [0] [0, 1]).2.2
      (by decide) (by decide)⟩

/-- C14, instance: no side-chain channel, and a side-chain of two channels. -/
theorem division_defined_iff_side_chain_witness :
    (([] : AudioSampleBuffer) = []) ∧
    ((∀ j, mixedSamples ([] : AudioSampleBuffer) j = none) ∧
      (∀ (sampleRate : ℚ) (numSamples : Nat) (g : NoiseGate) (mainInputOutput : AudioSampleBuffer),
        0 < numSamples →
        processBlock sampleRate numSamples ([] : AudioSampleBuffer) g mainInputOutput = none)) ∧
    (([[1, 2], [3, 4]] : AudioSampleBuffer) ≠ []) ∧
    ((∀ j, mixedSamples ([[1, 2], [3, 4]] : AudioSampleBuffer) j =
        some ((([[1, 2], [3, 4]] : AudioSampleBuffer).map (fun ch => ch.getD j 0)).sum / (([[1, 2], [3, 4]] : AudioSampleBuffer).length : ℚ))) ∧
      (∀ (sampleRate : ℚ) (numSamples : Nat) (g : NoiseGate) (mainInputOutput : AudioSampleBuffer),
        processBlock sampleRate numSamples ([[1, 2], [3, 4]] : AudioSampleBuffer) g mainInputOutput ≠ none ∧
        ∀ (acc : NoiseGate × AudioSampleBuffer) (j : Nat),
          processSample g.alpha g.threshold sampleRate ([[1, 2], [3, 4]] : AudioSampleBuffer) acc j ≠ none)) :=
  ⟨rfl,
    (division_defined_iff_side_chain []).1 rfl,
    List.cons_ne_nil _ _,
    (division_defined_iff_side_chain [[1, 2], [3, 4]]).2 (List.cons_ne_nil _ _)⟩

/-- C15, instance: alpha 1/2, a stereo side-chain of constant mix 2, three frames. -/
theorem envelope_response_witness :
    (∀ j, j < (3 : Nat) → mixedSamples ([[1, 1, 1], [3, 3, 3]] : AudioSampleBuffer) j = some (2 : ℚ)) ∧
    (([[1, 1, 1], [3, 3, 3]] : AudioSampleBuffer) ≠ []) ∧
    (∀ j, j < (3 : Nat) → finiteFrame ([[1, 1, 1], [3, 3, 3]] : AudioSampleBuffer) j) ∧
    (((⟨1 / 2, 1 / 2, 0, 0⟩ : NoiseGate).alpha = 1 → ∀ n, n ≤ (3 : Nat) →
          ∃ gn outn, processBlock 2 n ([[1, 1, 1], [3, 3, 3]] : AudioSampleBuffer) (⟨1 / 2, 1 / 2, 0, 0⟩ : NoiseGate) ([[5, 6, 7]] : AudioSampleBuffer) = some (gn, outn) ∧
            gn.lowPassCoeff = (⟨1 / 2, 1 / 2, 0, 0⟩ : NoiseGate).lowPassCoeff) ∧
        ((⟨1 / 2, 1 / 2, 0, 0⟩ : NoiseGate).alpha = 0 → ∀ n, 1 ≤ n → n ≤ (3 : Nat) →
          ∃ gn outn, processBlock 2 n ([[1, 1, 1], [3, 3, 3]] : AudioSampleBuffer) (⟨1 / 2, 1 / 2, 0, 0⟩ : NoiseGate) ([[5, 6, 7]] : AudioSampleBuffer) = some (gn, outn) ∧
            gn.lowPassCoeff = (2 : ℚ)) ∧
        (0 ≤ (⟨1 / 2, 1 / 2, 0, 0⟩ : NoiseGate).alpha → (⟨1 / 2, 1 / 2, 0, 0⟩ : NoiseGate).alpha ≤ 1 → (⟨1 / 2, 1 / 2, 0, 0⟩ : NoiseGate).lowPassCoeff ≤ 0 → 0 ≤ (2 : ℚ) → ∀ n, n < (3 : Nat) →
          ∃ gn outn gm outm,
            processBlock 2 n ([[1, 1, 1], [3, 3, 3]] : AudioSampleBuffer) (⟨1 / 2, 1 / 2, 0, 0⟩ : NoiseGate) ([[5, 6, 7]] : AudioSampleBuffer) = some (gn, outn) ∧
            processBlock 2 (n + 1) ([[1, 1, 1], [3, 3, 3]] : AudioSampleBuffer) (⟨1 / 2, 1 / 2, 0, 0⟩ : NoiseGate) ([[5, 6, 7]] : AudioSampleBuffer) = some (gm, outm) ∧
            gn.lowPassCoeff ≤ gm.lowPassCoeff)) :=
  ⟨(by intro j hj; interval_cases j <;> decide!),
    (List.cons_ne_nil _ _),
    (by intro j hj; unfold finiteFrame; interval_cases j <;> decide!),
    envelope_response
      2
      (3 : Nat)
      ([[1, 1, 1], [3, 3, 3]] : AudioSampleBuffer)
      (⟨1 / 2, 1 / 2, 0, 0⟩ : NoiseGate)
      ([[5, 6, 7]] : AudioSampleBuffer)
      (2 : ℚ)
      (by intro j hj; interval_cases j <;> decide!)
      (List.cons_ne_nil _ _)
      (by intro j hj; unfold finiteFrame; interval_cases j <;> decide!)⟩

/-- C16, instance: a block of three frames split after the first. -/
theorem block_size_independence_witness :
    (([[1, 0, 0]] : AudioSampleBuffer) ≠ []) ∧
    (∃ g1 out1 g2 out2 out,
          processBlock 2 (1 : Nat) (([[1, 0, 0]] : AudioSampleBuffer).map (List.take (1 : Nat))) (⟨1 / 2, 0, 0, 0⟩ : NoiseGate)
            (([[5, 6, 7]] : AudioSampleBuffer).map (List.take (1 : Nat))) = some (g1, out1) ∧
          processBlock 2 (2 : Nat) (([[1, 0, 0]] : AudioSampleBuffer).map (List.drop (1 : Nat))) g1
            (([[5, 6, 7]] : AudioSampleBuffer).map (List.drop (1 : Nat))) = some (g2, out2) ∧
          processBlock 2 ((1 : Nat) + (2 : Nat)) ([[1, 0, 0]] : AudioSampleBuffer) (⟨1 / 2, 0, 0, 0⟩ : NoiseGate) ([[5, 6, 7]] : AudioSampleBuffer) = some (g2, out) ∧
          (∀ i j, j < (1 : Nat) → readSample out i j = readSample out1 i j) ∧
          (∀ i j, j < (2 : Nat) → readSample out i ((1 : Nat) + j) = readSample out2 i j)) :=
  ⟨(List.cons_ne_nil _ _),
    block_size_independence
      2
      (1 : Nat)
      (2 : Nat)
      ([[1, 0, 0]] : AudioSampleBuffer)
      (⟨1 / 2, 0, 0, 0⟩ : NoiseGate)
      ([[5, 6, 7]] : AudioSampleBuffer)
      (List.cons_ne_nil _ _)⟩

/-- C17, instance: sample rate 2, one loud side-chain frame followed by two silent
ones. -/
theorem main_signal_does_not_influence_gate_witness :
    (([[1, 0, 0]] : AudioSampleBuffer) ≠ []) ∧
    (∃ (g1 : NoiseGate) (gateOpen : Nat → Bool), ∀ mainInputOutput : AudioSampleBuffer,
          ∃ out, processBlock 2 (3 : Nat) ([[1, 0, 0]] : AudioSampleBuffer) (⟨1 / 2, 0, 0, 0⟩ : NoiseGate) mainInputOutput
              = some (g1, out) ∧
            ∀ i j, j < (3 : Nat) →
              readSample out i j = if gateOpen j = true then readSample mainInputOutput i j else 0) :=
  ⟨(List.cons_ne_nil _ _),
    main_signal_does_not_influence_gate
      2
      (3 : Nat)
      ([[1, 0, 0]] : AudioSampleBuffer)
      (⟨1 / 2, 0, 0, 0⟩ : NoiseGate)
      (List.cons_ne_nil _ _)⟩

/-- C18, instance: sample rate 2 and the state after one loud frame. -/
theorem hold_counter_bound_witness :
    (1 ≤ (2 : Int)) ∧
    ((2 : Int) < 2 ^ 31) ∧
    (Reachable (fun sampleRate _ _ _ => toInt sampleRate = (2 : Int)) (⟨1 / 2, 0, 1, 1⟩ : NoiseGate)) ∧
    (0 ≤ (⟨1 / 2, 0, 1, 1⟩ : NoiseGate).sampleCountDown ∧ (⟨1 / 2, 0, 1, 1⟩ : NoiseGate).sampleCountDown ≤ (2 : Int) - 1 ∧
        ∀ (sampleRate : ℚ) (n : Nat) (sideChainInput mainInputOutput : AudioSampleBuffer),
          toInt sampleRate = (2 : Int) → sideChainInput ≠ [] →
          ∃ g1 out, processBlock sampleRate (n + 1) sideChainInput (⟨1 / 2, 0, 1, 1⟩ : NoiseGate) mainInputOutput
              = some (g1, out) ∧
            0 ≤ g1.sampleCountDown ∧ g1.sampleCountDown ≤ (2 : Int) - 1 ∧
            (detectsAt sampleRate sideChainInput (⟨1 / 2, 0, 1, 1⟩ : NoiseGate) mainInputOutput n →
              g1.sampleCountDown = (2 : Int) - 1) ∧
            (2 ≤ (2 : Int) → g1.sampleCountDown = (2 : Int) - 1 →
              detectsAt sampleRate sideChainInput (⟨1 / 2, 0, 1, 1⟩ : NoiseGate) mainInputOutput n)) :=
  ⟨(by decide),
    (by decide),
    (Reachable.process 2 1 [[1]] _ [[5]] _ [[5]] (Reachable.prepare 0 0 ⟨1 / 2, 0, 0, 0⟩)
      (by decide!) (by decide!)),
    hold_counter_bound
      (2 : Int)
      (by decide)
      (by decide)
      (⟨1 / 2, 0, 1, 1⟩ : NoiseGate)
      (Reachable.process 2 1 [[1]] _ [[5]] _ [[5]] (Reachable.prepare 0 0 ⟨1 / 2, 0, 0, 0⟩)
      (by decide!) (by decide!))⟩

end NoiseGate
